import Mathlib

/-!
Verification of the incremental JSON parsing engine
`boost::beast::json::basic_parser` (file `impl/basic_parser.hpp`).

The parser is a byte-level state machine driven by an explicit continuation
stack (`st_stack_`).  `write` advances a cursor over one chunk of input,
dispatching on the top of the stack (`goto loop` in the source), emitting
structural events to the derived class (the sink) and mutating the stack by
push / replace / pop.  `write_eof` checks that the residual state is a valid
stopping point.

Modelling conventions:
  * The stack is a `List State` with the head as the top (`st_stack_.back()`).
    `current_state` of an empty stack is `State.end_` (`state::end`).
  * A chunk is a `List Char`; the characters stand for the input bytes.
  * The sink (the `Derived` class) is a function `Ev → Option ErrC`: the value
    the callback leaves in `ec` (`none` = callback succeeded).
  * `ec` is threaded through the loop as an `Option ErrC` parameter, because
    the source checks `if(ec) return` only at some call sites (the
    `on_array_begin` and `on_string_begin` sites lack the check and fall into
    states that return immediately).
  * `BOOST_ASSERT` is a release-mode no-op and is not modelled.
  * In `case state::members` the source dereferences `*p` without first
    checking `p < p1`; with an exhausted cursor this is an out-of-bounds
    read.  The model reports it explicitly as the result `ErrC.oobRead`
    and stops, since the source's behaviour there is undefined.
  * The recursion (the `goto loop`) is written with explicit fuel so that the
    function is structurally recursive and computable by the kernel; the
    wrapper `writeLoop` supplies fuel that is proved sufficient
    (`writeLoopF_irrel`), and all reasoning goes through one-step equation
    lemmas for `writeLoop`.
-/

namespace BeastJson

/-- The `state` enumeration of `basic_parser` (the tags stored on
`st_stack_`).  `end_` models `state::end`. -/
inductive State where
  | json | element | ws | value
  | object | member | members | colon
  | array_ | string | number
  | true_1 | true_2 | true_3 | true_4
  | false_1 | false_2 | false_3 | false_4 | false_5
  | null_1 | null_2 | null_3 | null_4
  | end_
  deriving DecidableEq, Repr

/-- The structural callbacks of the event sink (`Derived`) that the engine
invokes in `write`: `on_object_begin`, `on_object_end`, `on_array_begin`,
`on_string_begin`, `on_true`, `on_false`, `on_null`. -/
inductive Ev where
  | objectBegin | objectEnd | arrayBegin | stringBegin
  | trueLit | falseLit | nullLit
  deriving DecidableEq, Repr

/-- Error codes.  `syntaxErr` is `error::syntax`; `sinkErr` stands for a
nonzero code assigned by a sink callback; `oobRead` marks the out-of-bounds
read in `case state::members` (undefined behaviour in the source). -/
inductive ErrC where
  | syntaxErr | sinkErr | oobRead
  deriving DecidableEq, Repr

/-- A sink: for each callback, the error code it leaves in `ec`
(`none` = success). -/
def Sink : Type := Ev → Option ErrC

/-- The sink that never fails. -/
def pureSink : Sink := fun _ => none

/-- A sink whose callbacks always assign an error code. -/
def failSink : Sink := fun _ => some ErrC.sinkErr

/-- `detail::parser_base::is_ws`. -/
def is_ws (c : Char) : Bool :=
  c == ' ' || c == '\r' || c == '\n' || c == '\t'

/-- `detail::parser_base::is_digit`: `static_cast<unsigned char>(c-'0') < 10`,
modelled with the mod-256 wraparound of the unsigned-char cast. -/
def is_digit (c : Char) : Bool :=
  decide ((c.toNat + 256 - 48) % 256 < 10)

/-- The ten explicit digit case labels of the `switch(*p)` in
`case state::value`. -/
def isDigitCase (c : Char) : Bool :=
  c == '0' || c == '1' || c == '2' || c == '3' || c == '4' ||
  c == '5' || c == '6' || c == '7' || c == '8' || c == '9'

/-- Result of one `write` call: the events emitted (in order), the final
continuation stack, the unconsumed rest of the chunk (the source discards it
on return), and the final error code. -/
structure WriteRes where
  events : List Ev
  stack : List State
  rest : List Char
  err : Option ErrC
  deriving DecidableEq, Repr

/-- Prepend an event to a result's event list. -/
def WriteRes.consEv (e : Ev) (r : WriteRes) : WriteRes :=
  ⟨e :: r.events, r.stack, r.rest, r.err⟩

/-- Weight of a state, used for the fuel bound: every `goto loop` step of
`write` either consumes a byte or strictly decreases the summed weight of
the stack. -/
def weight : State → Nat
  | .json => 6
  | .element => 5
  | .value => 2
  | .object => 11
  | .member => 10
  | _ => 1

/-- Summed weight of a stack. -/
def stackW : List State → Nat
  | [] => 0
  | s :: r => weight s + stackW r

/-- Fuel bound for `writeLoop` on a given stack and chunk. -/
def wlMeasure (st : List State) (inp : List Char) : Nat :=
  16 * inp.length + stackW st

/-- The `loop:`/`switch(current_state())` body of
`basic_parser::write(const_buffer, error_code&)`, with explicit fuel.
Each arm is a direct transcription of the corresponding `case` of the
source's switch; `writeLoopF f …` is the `goto loop`. -/
def writeLoopF : Nat → Sink → Option ErrC → List State → List Char → WriteRes
  | 0, _, ec, st, inp => ⟨[], st, inp, ec⟩
  | f + 1, sink, ec, st, inp =>
    match st, inp with
    -- stack empty: current_state() == state::end, `case state::end: break;`
    | [], _ => ⟨[], [], inp, ec⟩
    -- case state::json: replace(element); goto loop;
    | .json :: r, _ => writeLoopF f sink ec (.element :: r) inp
    -- case state::element: replace(ws); push(value); push(ws); goto loop;
    | .element :: r, _ => writeLoopF f sink ec (.ws :: .value :: .ws :: r) inp
    -- case state::ws: consume whitespace; pop and re-dispatch on non-ws
    | .ws :: r, [] => ⟨[], .ws :: r, [], ec⟩
    | .ws :: r, c :: cs =>
      if is_ws c then writeLoopF f sink ec (.ws :: r) cs
      else writeLoopF f sink ec r (c :: cs)
    -- case state::value
    | .value :: r, [] => ⟨[], .value :: r, [], ec⟩
    | .value :: r, c :: cs =>
      if c = '{' then
        -- ++p; replace(object); on_object_begin(ec); if(ec) return;
        match sink .objectBegin with
        | some e => ⟨[.objectBegin], .object :: r, cs, some e⟩
        | none => WriteRes.consEv .objectBegin (writeLoopF f sink none (.object :: r) cs)
      else if c = '[' then
        -- ++p; replace(array_); on_array_begin(ec); goto loop;  (no ec check)
        WriteRes.consEv .arrayBegin (writeLoopF f sink (sink .arrayBegin) (.array_ :: r) cs)
      else if c = '"' then
        -- ++p; replace(string); on_string_begin(ec); goto loop;  (no ec check)
        WriteRes.consEv .stringBegin (writeLoopF f sink (sink .stringBegin) (.string :: r) cs)
      else if isDigitCase c then
        -- cases '0'..'9': /* store *p */ ++p; replace(number); goto loop;
        writeLoopF f sink ec (.number :: r) cs
      else if c = 't' then
        match cs with
        | c1 :: c2 :: c3 :: rest =>
          -- fast path: p + 4 <= p1
          if c1 ≠ 'r' then ⟨[], .value :: r, c :: cs, some .syntaxErr⟩
          else if c2 ≠ 'u' then ⟨[], .value :: r, c :: cs, some .syntaxErr⟩
          else if c3 ≠ 'e' then ⟨[], .value :: r, c :: cs, some .syntaxErr⟩
          else writeLoopF f sink ec (.true_4 :: r) rest    -- p = p + 4
        | _ => writeLoopF f sink ec (.true_1 :: r) cs       -- ++p; replace(true_1)
      else if c = 'f' then
        match cs with
        | c1 :: c2 :: c3 :: c4 :: rest =>
          -- fast path: p + 5 <= p1
          if c1 ≠ 'a' then ⟨[], .value :: r, c :: cs, some .syntaxErr⟩
          else if c2 ≠ 'l' then ⟨[], .value :: r, c :: cs, some .syntaxErr⟩
          else if c3 ≠ 's' then ⟨[], .value :: r, c :: cs, some .syntaxErr⟩
          else if c4 ≠ 'e' then ⟨[], .value :: r, c :: cs, some .syntaxErr⟩
          else writeLoopF f sink ec (.false_5 :: r) (c4 :: rest)  -- p = p + 4 (sic)
        | _ => writeLoopF f sink ec (.false_1 :: r) cs      -- ++p; replace(false_1)
      else if c = 'n' then
        match cs with
        | c1 :: c2 :: c3 :: rest =>
          -- fast path: p + 4 <= p1
          if c1 ≠ 'u' then ⟨[], .value :: r, c :: cs, some .syntaxErr⟩
          else if c2 ≠ 'l' then ⟨[], .value :: r, c :: cs, some .syntaxErr⟩
          else if c3 ≠ 'l' then ⟨[], .value :: r, c :: cs, some .syntaxErr⟩
          else writeLoopF f sink ec (.null_4 :: r) rest     -- p = p + 4
        | _ => writeLoopF f sink ec (.null_1 :: r) cs       -- ++p; replace(null_1)
      else ⟨[], .value :: r, c :: cs, some .syntaxErr⟩      -- default: ec = syntax
    -- case state::object
    | .object :: r, [] => ⟨[], .object :: r, [], ec⟩
    | .object :: r, c :: cs =>
      if is_ws c then writeLoopF f sink ec (.ws :: .object :: r) cs
      else if c = '}' then
        match sink .objectEnd with
        | some e => ⟨[.objectEnd], .object :: r, cs, some e⟩
        | none => WriteRes.consEv .objectEnd (writeLoopF f sink none r cs)  -- pop
      else writeLoopF f sink ec (.member :: r) (c :: cs)    -- replace(member); fallthrough
    -- case state::member: replace(members); push element, colon, ws, string
    | .member :: r, _ =>
      writeLoopF f sink ec (.string :: .ws :: .colon :: .element :: .members :: r) inp
    -- case state::members: reads *p without checking p < p1
    | .members :: r, [] => ⟨[], .members :: r, [], some .oobRead⟩
    | .members :: r, c :: cs =>
      if c ≠ '}' then ⟨[], .members :: r, c :: cs, ec⟩      -- break (no error, no consume)
      else
        match sink .objectEnd with
        | some e => ⟨[.objectEnd], .members :: r, cs, some e⟩
        | none => ⟨[.objectEnd], .members :: r, cs, none⟩   -- break (no pop)
    -- case state::colon
    | .colon :: r, [] => ⟨[], .colon :: r, [], ec⟩
    | .colon :: r, c :: cs =>
      if c ≠ ':' then ⟨[], .colon :: r, c :: cs, some .syntaxErr⟩
      else writeLoopF f sink ec r cs                        -- ++p; pop; goto loop
    -- placeholder productions: break immediately
    | .array_ :: r, _ => ⟨[], .array_ :: r, inp, ec⟩
    | .string :: r, _ => ⟨[], .string :: r, inp, ec⟩
    | .number :: r, _ => ⟨[], .number :: r, inp, ec⟩
    -- true
    | .true_1 :: r, [] => ⟨[], .true_1 :: r, [], ec⟩
    | .true_1 :: r, c :: cs =>
      if c ≠ 'r' then ⟨[], .true_1 :: r, c :: cs, some .syntaxErr⟩
      else writeLoopF f sink ec (.true_2 :: r) cs
    | .true_2 :: r, [] => ⟨[], .true_2 :: r, [], ec⟩
    | .true_2 :: r, c :: cs =>
      if c ≠ 'u' then ⟨[], .true_2 :: r, c :: cs, some .syntaxErr⟩
      else writeLoopF f sink ec (.true_3 :: r) cs
    | .true_3 :: r, [] => ⟨[], .true_3 :: r, [], ec⟩
    | .true_3 :: r, c :: cs =>
      if c ≠ 'e' then ⟨[], .true_3 :: r, c :: cs, some .syntaxErr⟩
      else writeLoopF f sink ec (.true_4 :: r) cs
    | .true_4 :: r, _ =>
      match sink .trueLit with
      | some e => ⟨[.trueLit], .true_4 :: r, inp, some e⟩
      | none => WriteRes.consEv .trueLit (writeLoopF f sink none r inp)     -- pop
    -- false
    | .false_1 :: r, [] => ⟨[], .false_1 :: r, [], ec⟩
    | .false_1 :: r, c :: cs =>
      if c ≠ 'a' then ⟨[], .false_1 :: r, c :: cs, some .syntaxErr⟩
      else writeLoopF f sink ec (.false_2 :: r) cs
    | .false_2 :: r, [] => ⟨[], .false_2 :: r, [], ec⟩
    | .false_2 :: r, c :: cs =>
      if c ≠ 'l' then ⟨[], .false_2 :: r, c :: cs, some .syntaxErr⟩
      else writeLoopF f sink ec (.false_3 :: r) cs
    | .false_3 :: r, [] => ⟨[], .false_3 :: r, [], ec⟩
    | .false_3 :: r, c :: cs =>
      if c ≠ 's' then ⟨[], .false_3 :: r, c :: cs, some .syntaxErr⟩
      else writeLoopF f sink ec (.false_4 :: r) cs
    | .false_4 :: r, [] => ⟨[], .false_4 :: r, [], ec⟩
    | .false_4 :: r, c :: cs =>
      if c ≠ 'e' then ⟨[], .false_4 :: r, c :: cs, some .syntaxErr⟩
      else writeLoopF f sink ec (.false_5 :: r) cs
    | .false_5 :: r, _ =>
      match sink .falseLit with
      | some e => ⟨[.falseLit], .false_5 :: r, inp, some e⟩
      | none => WriteRes.consEv .falseLit (writeLoopF f sink none r inp)    -- pop
    -- null
    | .null_1 :: r, [] => ⟨[], .null_1 :: r, [], ec⟩
    | .null_1 :: r, c :: cs =>
      if c ≠ 'u' then ⟨[], .null_1 :: r, c :: cs, some .syntaxErr⟩
      else writeLoopF f sink ec (.null_2 :: r) cs
    | .null_2 :: r, [] => ⟨[], .null_2 :: r, [], ec⟩
    | .null_2 :: r, c :: cs =>
      if c ≠ 'l' then ⟨[], .null_2 :: r, c :: cs, some .syntaxErr⟩
      else writeLoopF f sink ec (.null_3 :: r) cs
    | .null_3 :: r, [] => ⟨[], .null_3 :: r, [], ec⟩
    | .null_3 :: r, c :: cs =>
      if c ≠ 'l' then ⟨[], .null_3 :: r, c :: cs, some .syntaxErr⟩
      else writeLoopF f sink ec (.null_4 :: r) cs
    | .null_4 :: r, _ =>
      match sink .nullLit with
      | some e => ⟨[.nullLit], .null_4 :: r, inp, some e⟩
      | none => WriteRes.consEv .nullLit (writeLoopF f sink none r inp)     -- pop
    -- case state::end (an end_ tag on the stack): break
    | .end_ :: r, _ => ⟨[], .end_ :: r, inp, ec⟩

/-- The `goto loop` engine of `basic_parser::write`, with fuel large enough
(see `writeLoopF_irrel`) that the out-of-fuel branch is never taken. -/
def writeLoop (sink : Sink) (ec : Option ErrC) (st : List State) (inp : List Char) : WriteRes :=
  writeLoopF (wlMeasure st inp + 1) sink ec st inp

/-- `basic_parser::current_state()`: top of the stack, or `state::end` when
the stack is empty. -/
def current_state : List State → State
  | [] => .end_
  | s :: _ => s

/-- `basic_parser::write(const_buffer, error_code&)`: the entry point clears
the caller's error slot (`ec.assign(0, ec.category())`) before running the
loop; `BOOST_ASSERT(current_state() != state::end)` is a release no-op. -/
def write (sink : Sink) (ecIn : Option ErrC) (st : List State) (inp : List Char) : WriteRes :=
  writeLoop sink none st inp

/-- `basic_parser::write_eof(error_code&)`: returns the stack (which the
source never touches) and the resulting error code. -/
def write_eof (st : List State) : List State × Option ErrC :=
  match current_state st with
  | .ws => (st, none)
  | .end_ => (st, none)
  | _ => (st, some .syntaxErr)

/-- Feed a sequence of chunks with one `write` call per chunk,
short-circuiting on the first error (the semantics of the buffer-sequence
overload of `write`).  Returns accumulated events, final stack, first error. -/
def feedSeq (sink : Sink) : List State → List (List Char) → List Ev × List State × Option ErrC
  | st, [] => ([], st, none)
  | st, c :: cs =>
    let r := write sink none st c
    match r.err with
    | some e => (r.events, r.stack, some e)
    | none =>
      let t := feedSeq sink r.stack cs
      (r.events ++ t.1, t.2.1, t.2.2)

/-- One `write` call with the pure sink and a cleared error slot. -/
def w1 (st : List State) (inp : List Char) : WriteRes :=
  writeLoop pureSink none st inp

/-- Observable outcome of feeding a sequence of chunks from stack `st` with
the pure sink and then `write_eof` (skipped when a write already failed):
the events in order and the final error result. -/
def obsFrom (st : List State) (chunks : List (List Char)) : List Ev × Option ErrC :=
  let f := feedSeq pureSink st chunks
  match f.2.2 with
  | some e => (f.1, some e)
  | none => (f.1, (write_eof f.2.1).2)

/-- Run a freshly constructed parser (stack `[state::json]`) over a sequence
of chunks with the pure sink, then `write_eof`; observable outcome = events
in order, and the final error result. -/
def runDoc (chunks : List (List Char)) : List Ev × Option ErrC :=
  obsFrom [State.json] chunks

/-- A fully drained stack: after the single top-level value completes, the
residual stack is `[]` (state::end) or the lone bottom `ws`; from either,
`write` consumes without events or errors and `write_eof` succeeds. -/
def isDrain (s : List State) : Prop := s = [] ∨ s = [State.ws]

/-- Stacks indistinguishable by all future observations: equal, or both
drained.  (The `false` fast path, which skips the final `e`, leaves the run
in a drained stack where the byte-exact run still holds its bottom `ws`.) -/
def obsRel (s t : List State) : Prop := s = t ∨ (isDrain s ∧ isDrain t)

/-- The stacks reachable at `write` boundaries when parsing from the
initial stack `[state::json]` with the pure sink. -/
def goodStacks : List (List State) :=
  [ [State.json],
    [State.ws, State.value, State.ws],
    [State.value, State.ws],
    [State.object, State.ws],
    [State.ws, State.object, State.ws],
    [State.ws],
    [],
    [State.true_1, State.ws], [State.true_2, State.ws], [State.true_3, State.ws],
    [State.false_1, State.ws], [State.false_2, State.ws],
    [State.false_3, State.ws], [State.false_4, State.ws],
    [State.null_1, State.ws], [State.null_2, State.ws], [State.null_3, State.ws],
    [State.number, State.ws],
    [State.string, State.ws],
    [State.array_, State.ws],
    [State.string, State.ws, State.colon, State.element, State.members, State.ws] ]

/-- Membership in the reachable-stack list. -/
def goodStack (st : List State) : Prop := st ∈ goodStacks

instance (st : List State) : Decidable (goodStack st) := by
  unfold goodStack; infer_instance

/-- The observable agreement used to compare a byte-exact continuation `B`
with a run `W` that was given the same bytes in one chunk: on `B`-error the
events and error agree; on `B`-success events agree, `W` succeeds, and the
final stacks are observation-equivalent. -/
def RelW (W B : WriteRes) : Prop :=
  (∀ e, B.err = some e → W.events = B.events ∧ W.err = some e)
  ∧ (B.err = none → W.events = B.events ∧ W.err = none ∧ obsRel W.stack B.stack)

/-- The split property: `W` is the one-chunk run of `a ++ b`, `A` the run of
`a` alone, `B` the run of `b` from `A`'s residual stack.  On `A`-error, `W`
fails identically; otherwise `W`'s observables are `A`'s followed by `B`'s,
with observation-equivalent final stacks. -/
def SplitRel (W A B : WriteRes) : Prop :=
  (∀ e, A.err = some e → W.events = A.events ∧ W.err = some e)
  ∧ (A.err = none →
      W.events = A.events ++ B.events ∧ W.err = B.err
      ∧ (B.err = none → obsRel W.stack B.stack))

/-- Split property for a chunk boundary after `a` at stack `st`, plus
preservation of reachable stacks. -/
def SplitConc (st : List State) (a b : List Char) : Prop :=
  ((w1 st a).err = none → goodStack (w1 st a).stack)
  ∧ SplitRel (w1 st (a ++ b)) (w1 st a) (w1 (w1 st a).stack b)

/-- A document accepted by the parser: writing it as a single chunk and then
signalling end-of-input reports no error. -/
def acceptedDoc (doc : List Char) : Prop :=
  (runDoc [doc]).2 = none

instance (doc : List Char) : Decidable (acceptedDoc doc) := by
  unfold acceptedDoc; infer_instance


set_option maxHeartbeats 1000000 in
theorem writeLoopF_irrel (f : Nat) :
    ∀ (f' : Nat) (sink : Sink) (ec : Option ErrC) (st : List State) (inp : List Char),
      wlMeasure st inp < f → wlMeasure st inp < f' →
      writeLoopF f sink ec st inp = writeLoopF f' sink ec st inp := by
  induction f with
  | zero =>
    intro f' sink ec st inp h _
    exact absurd h (Nat.not_lt_zero _)
  | succ k ih =>
    intro f' sink ec st inp h h'
    cases f' with
    | zero => exact absurd h' (Nat.not_lt_zero _)
    | succ k' =>
      cases st with
      | nil => rfl
      | cons s r =>
        cases s with
        | json =>
          simp only [writeLoopF]
          exact ih k' sink ec (State.element :: r) inp
            (by simp only [wlMeasure, stackW, weight, List.length_cons] at h ⊢; omega)
            (by simp only [wlMeasure, stackW, weight, List.length_cons] at h' ⊢; omega)
        | element =>
          simp only [writeLoopF]
          exact ih k' sink ec (State.ws :: State.value :: State.ws :: r) inp
            (by simp only [wlMeasure, stackW, weight, List.length_cons] at h ⊢; omega)
            (by simp only [wlMeasure, stackW, weight, List.length_cons] at h' ⊢; omega)
        | ws =>
          cases inp with
          | nil => rfl
          | cons c cs =>
            simp only [writeLoopF]
            by_cases hc : is_ws c
            · simp [hc]
              exact ih k' sink ec (State.ws :: r) cs
                (by simp only [wlMeasure, stackW, weight, List.length_cons] at h ⊢; omega)
                (by simp only [wlMeasure, stackW, weight, List.length_cons] at h' ⊢; omega)
            · simp [hc]
              exact ih k' sink ec r (c :: cs)
                (by simp only [wlMeasure, stackW, weight, List.length_cons] at h ⊢; omega)
                (by simp only [wlMeasure, stackW, weight, List.length_cons] at h' ⊢; omega)
        | value =>
          cases inp with
          | nil => rfl
          | cons c cs =>
            simp only [writeLoopF]
            by_cases h1 : c = '{'
            · simp [h1]
              cases hs : sink Ev.objectBegin with
              | some e => rfl
              | none =>
                refine congrArg (WriteRes.consEv _) ?_
                exact ih k' sink none (State.object :: r) cs
                  (by simp only [wlMeasure, stackW, weight, List.length_cons] at h ⊢; omega)
                  (by simp only [wlMeasure, stackW, weight, List.length_cons] at h' ⊢; omega)
            · simp [h1]
              by_cases h2 : c = '['
              · simp [h2]
                refine congrArg (WriteRes.consEv _) ?_
                exact ih k' sink (sink Ev.arrayBegin) (State.array_ :: r) cs
                  (by simp only [wlMeasure, stackW, weight, List.length_cons] at h ⊢; omega)
                  (by simp only [wlMeasure, stackW, weight, List.length_cons] at h' ⊢; omega)
              · simp [h2]
                by_cases h3 : c = '"'
                · simp [h3]
                  refine congrArg (WriteRes.consEv _) ?_
                  exact ih k' sink (sink Ev.stringBegin) (State.string :: r) cs
                    (by simp only [wlMeasure, stackW, weight, List.length_cons] at h ⊢; omega)
                    (by simp only [wlMeasure, stackW, weight, List.length_cons] at h' ⊢; omega)
                · simp [h3]
                  by_cases h4 : isDigitCase c
                  · simp [h4]
                    exact ih k' sink ec (State.number :: r) cs
                      (by simp only [wlMeasure, stackW, weight, List.length_cons] at h ⊢; omega)
                      (by simp only [wlMeasure, stackW, weight, List.length_cons] at h' ⊢; omega)
                  · simp [h4]
                    by_cases h5 : c = 't'
                    · simp [h5, isDigitCase]
                      match cs with
                      | [] =>
                        exact ih k' sink ec (State.true_1 :: r) []
                          (by simp only [wlMeasure, stackW, weight, List.length_cons] at h ⊢; omega)
                          (by simp only [wlMeasure, stackW, weight, List.length_cons] at h' ⊢; omega)
                      | [c1] =>
                        exact ih k' sink ec (State.true_1 :: r) [c1]
                          (by simp only [wlMeasure, stackW, weight, List.length_cons] at h ⊢; omega)
                          (by simp only [wlMeasure, stackW, weight, List.length_cons] at h' ⊢; omega)
                      | [c1, c2] =>
                        exact ih k' sink ec (State.true_1 :: r) [c1, c2]
                          (by simp only [wlMeasure, stackW, weight, List.length_cons] at h ⊢; omega)
                          (by simp only [wlMeasure, stackW, weight, List.length_cons] at h' ⊢; omega)
                      | c1 :: c2 :: c3 :: rest =>
                        by_cases g1 : c1 = 'r'
                        · simp only [g1]
                          by_cases g2 : c2 = 'u'
                          · simp only [g2]
                            by_cases g3 : c3 = 'e'
                            · simp [g1, g2, g3, isDigitCase]
                              exact ih k' sink ec (State.true_4 :: r) rest
                                (by simp only [wlMeasure, stackW, weight, List.length_cons] at h ⊢; omega)
                                (by simp only [wlMeasure, stackW, weight, List.length_cons] at h' ⊢; omega)
                            · simp [g1, g2, g3, isDigitCase]
                          · simp [g1, g2, isDigitCase]
                        · simp [g1, isDigitCase]
                    · simp [h5]
                      by_cases h6 : c = 'f'
                      · simp [h6, isDigitCase]
                        match cs with
                        | [] =>
                          exact ih k' sink ec (State.false_1 :: r) []
                            (by simp only [wlMeasure, stackW, weight, List.length_cons] at h ⊢; omega)
                            (by simp only [wlMeasure, stackW, weight, List.length_cons] at h' ⊢; omega)
                        | [c1] =>
                          exact ih k' sink ec (State.false_1 :: r) [c1]
                            (by simp only [wlMeasure, stackW, weight, List.length_cons] at h ⊢; omega)
                            (by simp only [wlMeasure, stackW, weight, List.length_cons] at h' ⊢; omega)
                        | [c1, c2] =>
                          exact ih k' sink ec (State.false_1 :: r) [c1, c2]
                            (by simp only [wlMeasure, stackW, weight, List.length_cons] at h ⊢; omega)
                            (by simp only [wlMeasure, stackW, weight, List.length_cons] at h' ⊢; omega)
                        | [c1, c2, c3] =>
                          exact ih k' sink ec (State.false_1 :: r) [c1, c2, c3]
                            (by simp only [wlMeasure, stackW, weight, List.length_cons] at h ⊢; omega)
                            (by simp only [wlMeasure, stackW, weight, List.length_cons] at h' ⊢; omega)
                        | c1 :: c2 :: c3 :: c4 :: rest =>
                          by_cases g1 : c1 = 'a'
                          · simp only [g1]
                            by_cases g2 : c2 = 'l'
                            · simp only [g2]
                              by_cases g3 : c3 = 's'
                              · simp only [g3]
                                by_cases g4 : c4 = 'e'
                                · simp [g1, g2, g3, g4, isDigitCase]
                                  exact ih k' sink ec (State.false_5 :: r) ('e' :: rest)
                                    (by simp only [wlMeasure, stackW, weight, List.length_cons] at h ⊢; omega)
                                    (by simp only [wlMeasure, stackW, weight, List.length_cons] at h' ⊢; omega)
                                · simp [g1, g2, g3, g4, isDigitCase]
                              · simp [g1, g2, g3, isDigitCase]
                            · simp [g1, g2, isDigitCase]
                          · simp [g1, isDigitCase]
                      · simp [h6]
                        by_cases h7 : c = 'n'
                        · simp [h7, isDigitCase]
                          match cs with
                          | [] =>
                            exact ih k' sink ec (State.null_1 :: r) []
                              (by simp only [wlMeasure, stackW, weight, List.length_cons] at h ⊢; omega)
                              (by simp only [wlMeasure, stackW, weight, List.length_cons] at h' ⊢; omega)
                          | [c1] =>
                            exact ih k' sink ec (State.null_1 :: r) [c1]
                              (by simp only [wlMeasure, stackW, weight, List.length_cons] at h ⊢; omega)
                              (by simp only [wlMeasure, stackW, weight, List.length_cons] at h' ⊢; omega)
                          | [c1, c2] =>
                            exact ih k' sink ec (State.null_1 :: r) [c1, c2]
                              (by simp only [wlMeasure, stackW, weight, List.length_cons] at h ⊢; omega)
                              (by simp only [wlMeasure, stackW, weight, List.length_cons] at h' ⊢; omega)
                          | c1 :: c2 :: c3 :: rest =>
                            by_cases g1 : c1 = 'u'
                            · simp only [g1]
                              by_cases g2 : c2 = 'l'
                              · simp only [g2]
                                by_cases g3 : c3 = 'l'
                                · simp [g1, g2, g3, isDigitCase]
                                  exact ih k' sink ec (State.null_4 :: r) rest
                                    (by simp only [wlMeasure, stackW, weight, List.length_cons] at h ⊢; omega)
                                    (by simp only [wlMeasure, stackW, weight, List.length_cons] at h' ⊢; omega)
                                · simp [g1, g2, g3, isDigitCase]
                              · simp [g1, g2, isDigitCase]
                            · simp [g1, isDigitCase]
                        · simp [h7]
        | object =>
          cases inp with
          | nil => rfl
          | cons c cs =>
            simp only [writeLoopF]
            by_cases hw : is_ws c
            · simp [hw]
              exact ih k' sink ec (State.ws :: State.object :: r) cs
                (by simp only [wlMeasure, stackW, weight, List.length_cons] at h ⊢; omega)
                (by simp only [wlMeasure, stackW, weight, List.length_cons] at h' ⊢; omega)
            · simp [hw]
              by_cases hc : c = '}'
              · simp [hc]
                cases hs : sink Ev.objectEnd with
                | some e => rfl
                | none =>
                  refine congrArg (WriteRes.consEv _) ?_
                  exact ih k' sink none r cs
                    (by simp only [wlMeasure, stackW, weight, List.length_cons] at h ⊢; omega)
                    (by simp only [wlMeasure, stackW, weight, List.length_cons] at h' ⊢; omega)
              · simp [hc]
                exact ih k' sink ec (State.member :: r) (c :: cs)
                  (by simp only [wlMeasure, stackW, weight, List.length_cons] at h ⊢; omega)
                  (by simp only [wlMeasure, stackW, weight, List.length_cons] at h' ⊢; omega)
        | member =>
          simp only [writeLoopF]
          exact ih k' sink ec (State.string :: State.ws :: State.colon :: State.element :: State.members :: r) inp
            (by simp only [wlMeasure, stackW, weight, List.length_cons] at h ⊢; omega)
            (by simp only [wlMeasure, stackW, weight, List.length_cons] at h' ⊢; omega)
        | members =>
          cases inp with
          | nil => rfl
          | cons c cs => rfl
        | colon =>
          cases inp with
          | nil => rfl
          | cons c cs =>
            simp only [writeLoopF]
            by_cases hc : c = ':'
            · simp [hc]
              exact ih k' sink ec r cs
                (by simp only [wlMeasure, stackW, weight, List.length_cons] at h ⊢; omega)
                (by simp only [wlMeasure, stackW, weight, List.length_cons] at h' ⊢; omega)
            · simp [hc]
        | array_ => rfl
        | string => rfl
        | number => rfl
        | true_1 =>
          cases inp with
          | nil => rfl
          | cons c cs =>
            simp only [writeLoopF]
            by_cases hc : c = 'r'
            · simp [hc]
              exact ih k' sink ec (State.true_2 :: r) cs
                (by simp only [wlMeasure, stackW, weight, List.length_cons] at h ⊢; omega)
                (by simp only [wlMeasure, stackW, weight, List.length_cons] at h' ⊢; omega)
            · simp [hc]
        | true_2 =>
          cases inp with
          | nil => rfl
          | cons c cs =>
            simp only [writeLoopF]
            by_cases hc : c = 'u'
            · simp [hc]
              exact ih k' sink ec (State.true_3 :: r) cs
                (by simp only [wlMeasure, stackW, weight, List.length_cons] at h ⊢; omega)
                (by simp only [wlMeasure, stackW, weight, List.length_cons] at h' ⊢; omega)
            · simp [hc]
        | true_3 =>
          cases inp with
          | nil => rfl
          | cons c cs =>
            simp only [writeLoopF]
            by_cases hc : c = 'e'
            · simp [hc]
              exact ih k' sink ec (State.true_4 :: r) cs
                (by simp only [wlMeasure, stackW, weight, List.length_cons] at h ⊢; omega)
                (by simp only [wlMeasure, stackW, weight, List.length_cons] at h' ⊢; omega)
            · simp [hc]
        | true_4 =>
          simp only [writeLoopF]
          cases hs : sink Ev.trueLit with
          | some e => rfl
          | none =>
            refine congrArg (WriteRes.consEv _) ?_
            exact ih k' sink none r inp
              (by simp only [wlMeasure, stackW, weight, List.length_cons] at h ⊢; omega)
              (by simp only [wlMeasure, stackW, weight, List.length_cons] at h' ⊢; omega)
        | false_1 =>
          cases inp with
          | nil => rfl
          | cons c cs =>
            simp only [writeLoopF]
            by_cases hc : c = 'a'
            · simp [hc]
              exact ih k' sink ec (State.false_2 :: r) cs
                (by simp only [wlMeasure, stackW, weight, List.length_cons] at h ⊢; omega)
                (by simp only [wlMeasure, stackW, weight, List.length_cons] at h' ⊢; omega)
            · simp [hc]
        | false_2 =>
          cases inp with
          | nil => rfl
          | cons c cs =>
            simp only [writeLoopF]
            by_cases hc : c = 'l'
            · simp [hc]
              exact ih k' sink ec (State.false_3 :: r) cs
                (by simp only [wlMeasure, stackW, weight, List.length_cons] at h ⊢; omega)
                (by simp only [wlMeasure, stackW, weight, List.length_cons] at h' ⊢; omega)
            · simp [hc]
        | false_3 =>
          cases inp with
          | nil => rfl
          | cons c cs =>
            simp only [writeLoopF]
            by_cases hc : c = 's'
            · simp [hc]
              exact ih k' sink ec (State.false_4 :: r) cs
                (by simp only [wlMeasure, stackW, weight, List.length_cons] at h ⊢; omega)
                (by simp only [wlMeasure, stackW, weight, List.length_cons] at h' ⊢; omega)
            · simp [hc]
        | false_4 =>
          cases inp with
          | nil => rfl
          | cons c cs =>
            simp only [writeLoopF]
            by_cases hc : c = 'e'
            · simp [hc]
              exact ih k' sink ec (State.false_5 :: r) cs
                (by simp only [wlMeasure, stackW, weight, List.length_cons] at h ⊢; omega)
                (by simp only [wlMeasure, stackW, weight, List.length_cons] at h' ⊢; omega)
            · simp [hc]
        | false_5 =>
          simp only [writeLoopF]
          cases hs : sink Ev.falseLit with
          | some e => rfl
          | none =>
            refine congrArg (WriteRes.consEv _) ?_
            exact ih k' sink none r inp
              (by simp only [wlMeasure, stackW, weight, List.length_cons] at h ⊢; omega)
              (by simp only [wlMeasure, stackW, weight, List.length_cons] at h' ⊢; omega)
        | null_1 =>
          cases inp with
          | nil => rfl
          | cons c cs =>
            simp only [writeLoopF]
            by_cases hc : c = 'u'
            · simp [hc]
              exact ih k' sink ec (State.null_2 :: r) cs
                (by simp only [wlMeasure, stackW, weight, List.length_cons] at h ⊢; omega)
                (by simp only [wlMeasure, stackW, weight, List.length_cons] at h' ⊢; omega)
            · simp [hc]
        | null_2 =>
          cases inp with
          | nil => rfl
          | cons c cs =>
            simp only [writeLoopF]
            by_cases hc : c = 'l'
            · simp [hc]
              exact ih k' sink ec (State.null_3 :: r) cs
                (by simp only [wlMeasure, stackW, weight, List.length_cons] at h ⊢; omega)
                (by simp only [wlMeasure, stackW, weight, List.length_cons] at h' ⊢; omega)
            · simp [hc]
        | null_3 =>
          cases inp with
          | nil => rfl
          | cons c cs =>
            simp only [writeLoopF]
            by_cases hc : c = 'l'
            · simp [hc]
              exact ih k' sink ec (State.null_4 :: r) cs
                (by simp only [wlMeasure, stackW, weight, List.length_cons] at h ⊢; omega)
                (by simp only [wlMeasure, stackW, weight, List.length_cons] at h' ⊢; omega)
            · simp [hc]
        | null_4 =>
          simp only [writeLoopF]
          cases hs : sink Ev.nullLit with
          | some e => rfl
          | none =>
            refine congrArg (WriteRes.consEv _) ?_
            exact ih k' sink none r inp
              (by simp only [wlMeasure, stackW, weight, List.length_cons] at h ⊢; omega)
              (by simp only [wlMeasure, stackW, weight, List.length_cons] at h' ⊢; omega)
        | end_ => rfl

/-- Transport between explicit fuel and the canonical fuel. -/
theorem wl_F (f : Nat) (sink : Sink) (ec : Option ErrC) (st : List State) (inp : List Char)
    (h : wlMeasure st inp < f) :
    writeLoopF f sink ec st inp = writeLoop sink ec st inp :=
  writeLoopF_irrel f (wlMeasure st inp + 1) sink ec st inp h (Nat.lt_succ_self _)

section StepLemmas

variable {sink : Sink} {ec : Option ErrC} {r : List State} {inp cs : List Char} {c : Char} {e : ErrC}

/-- Empty stack (`current_state() == state::end`): `write` is a no-op. -/
theorem wl_nil : writeLoop sink ec [] inp = ⟨[], [], inp, ec⟩ := rfl

/-- An `end_` tag on top: `case state::end: break`. -/
theorem wl_end : writeLoop sink ec (State.end_ :: r) inp = ⟨[], State.end_ :: r, inp, ec⟩ := rfl

/-- `case state::ws` with an exhausted cursor: suspend. -/
theorem wl_ws_nil : writeLoop sink ec (State.ws :: r) [] = ⟨[], State.ws :: r, [], ec⟩ := rfl

/-- `case state::value` with an exhausted cursor: suspend. -/
theorem wl_value_nil : writeLoop sink ec (State.value :: r) [] = ⟨[], State.value :: r, [], ec⟩ := rfl

/-- `case state::object` with an exhausted cursor: suspend. -/
theorem wl_object_nil : writeLoop sink ec (State.object :: r) [] = ⟨[], State.object :: r, [], ec⟩ := rfl

/-- `case state::members` with an exhausted cursor: the source reads `*p`
out of bounds. -/
theorem wl_members_nil :
    writeLoop sink ec (State.members :: r) [] = ⟨[], State.members :: r, [], some ErrC.oobRead⟩ := rfl

/-- `case state::colon` with an exhausted cursor: suspend. -/
theorem wl_colon_nil : writeLoop sink ec (State.colon :: r) [] = ⟨[], State.colon :: r, [], ec⟩ := rfl

/-- Placeholder `case state::array_`: break at once. -/
theorem wl_array : writeLoop sink ec (State.array_ :: r) inp = ⟨[], State.array_ :: r, inp, ec⟩ := rfl

/-- Placeholder `case state::string`: break at once. -/
theorem wl_string : writeLoop sink ec (State.string :: r) inp = ⟨[], State.string :: r, inp, ec⟩ := rfl

/-- Placeholder `case state::number`: break at once. -/
theorem wl_number : writeLoop sink ec (State.number :: r) inp = ⟨[], State.number :: r, inp, ec⟩ := rfl

/-- Literal sub-states with an exhausted cursor: suspend. -/
theorem wl_true1_nil : writeLoop sink ec (State.true_1 :: r) [] = ⟨[], State.true_1 :: r, [], ec⟩ := rfl

theorem wl_true2_nil : writeLoop sink ec (State.true_2 :: r) [] = ⟨[], State.true_2 :: r, [], ec⟩ := rfl

theorem wl_true3_nil : writeLoop sink ec (State.true_3 :: r) [] = ⟨[], State.true_3 :: r, [], ec⟩ := rfl

theorem wl_false1_nil : writeLoop sink ec (State.false_1 :: r) [] = ⟨[], State.false_1 :: r, [], ec⟩ := rfl

theorem wl_false2_nil : writeLoop sink ec (State.false_2 :: r) [] = ⟨[], State.false_2 :: r, [], ec⟩ := rfl

theorem wl_false3_nil : writeLoop sink ec (State.false_3 :: r) [] = ⟨[], State.false_3 :: r, [], ec⟩ := rfl

theorem wl_false4_nil : writeLoop sink ec (State.false_4 :: r) [] = ⟨[], State.false_4 :: r, [], ec⟩ := rfl

theorem wl_null1_nil : writeLoop sink ec (State.null_1 :: r) [] = ⟨[], State.null_1 :: r, [], ec⟩ := rfl

theorem wl_null2_nil : writeLoop sink ec (State.null_2 :: r) [] = ⟨[], State.null_2 :: r, [], ec⟩ := rfl

theorem wl_null3_nil : writeLoop sink ec (State.null_3 :: r) [] = ⟨[], State.null_3 :: r, [], ec⟩ := rfl

/-- `case state::json`: replace with `element` and re-dispatch. -/
theorem wl_json :
    writeLoop sink ec (State.json :: r) (inp) = writeLoop sink ec (State.element :: r) (inp) := by
  have h2 : writeLoopF (wlMeasure (State.json :: r) (inp)) sink ec (State.element :: r) (inp)
      = writeLoop sink ec (State.element :: r) (inp) :=
    wl_F (wlMeasure (State.json :: r) (inp)) sink ec (State.element :: r) (inp) (by simp only [wlMeasure, stackW, weight, List.length_cons]; omega)
  rw [← h2]
  show writeLoopF (wlMeasure (State.json :: r) (inp) + 1) sink ec (State.json :: r) (inp) = _
  simp [writeLoopF]

/-- `case state::element`: replace with `ws`, push `value`, push `ws`. -/
theorem wl_element :
    writeLoop sink ec (State.element :: r) (inp) = writeLoop sink ec (State.ws :: State.value :: State.ws :: r) (inp) := by
  have h2 : writeLoopF (wlMeasure (State.element :: r) (inp)) sink ec (State.ws :: State.value :: State.ws :: r) (inp)
      = writeLoop sink ec (State.ws :: State.value :: State.ws :: r) (inp) :=
    wl_F (wlMeasure (State.element :: r) (inp)) sink ec (State.ws :: State.value :: State.ws :: r) (inp) (by simp only [wlMeasure, stackW, weight, List.length_cons]; omega)
  rw [← h2]
  show writeLoopF (wlMeasure (State.element :: r) (inp) + 1) sink ec (State.element :: r) (inp) = _
  simp [writeLoopF]

/-- `case state::ws`, whitespace byte: consume it. -/
theorem wl_ws_consume (hc : is_ws c = true) :
    writeLoop sink ec (State.ws :: r) (c :: cs) = writeLoop sink ec (State.ws :: r) (cs) := by
  have h2 : writeLoopF (wlMeasure (State.ws :: r) (c :: cs)) sink ec (State.ws :: r) (cs)
      = writeLoop sink ec (State.ws :: r) (cs) :=
    wl_F (wlMeasure (State.ws :: r) (c :: cs)) sink ec (State.ws :: r) (cs) (by simp only [wlMeasure, stackW, weight, List.length_cons]; omega)
  rw [← h2]
  show writeLoopF (wlMeasure (State.ws :: r) (c :: cs) + 1) sink ec (State.ws :: r) (c :: cs) = _
  simp [writeLoopF, hc]

/-- `case state::ws`, non-whitespace byte: pop without consuming. -/
theorem wl_ws_pop (hc : is_ws c = false) :
    writeLoop sink ec (State.ws :: r) (c :: cs) = writeLoop sink ec (r) (c :: cs) := by
  have h2 : writeLoopF (wlMeasure (State.ws :: r) (c :: cs)) sink ec (r) (c :: cs)
      = writeLoop sink ec (r) (c :: cs) :=
    wl_F (wlMeasure (State.ws :: r) (c :: cs)) sink ec (r) (c :: cs) (by simp only [wlMeasure, stackW, weight, List.length_cons]; omega)
  rw [← h2]
  show writeLoopF (wlMeasure (State.ws :: r) (c :: cs) + 1) sink ec (State.ws :: r) (c :: cs) = _
  simp [writeLoopF, hc]

/-- `case state::value`, byte `{`, callback failure: return its error; the
`replace(object)` already happened, nothing more is consumed. -/
theorem wl_value_obj_err (hs : sink Ev.objectBegin = some e) :
    writeLoop sink ec (State.value :: r) ('{' :: cs) = ⟨[Ev.objectBegin], State.object :: r, cs, some e⟩ := by
  show writeLoopF (wlMeasure (State.value :: r) ('{' :: cs) + 1) sink ec (State.value :: r) ('{' :: cs) = _
  simp [writeLoopF, hs]

/-- `case state::value`, byte `{`, callback success: descend into `object`
(the emitted `on_object_begin` is prepended by `wl_value_obj_ok`). -/
theorem wl_value_obj_ok (hs : sink Ev.objectBegin = none) :
    writeLoop sink ec (State.value :: r) ('{' :: cs)
      = WriteRes.consEv Ev.objectBegin (writeLoop sink none (State.object :: r) cs) := by
  have h2 : writeLoopF (wlMeasure (State.value :: r) ('{' :: cs)) sink none (State.object :: r) (cs)
      = writeLoop sink none (State.object :: r) (cs) :=
    wl_F (wlMeasure (State.value :: r) ('{' :: cs)) sink none (State.object :: r) (cs) (by simp only [wlMeasure, stackW, weight, List.length_cons]; omega)
  rw [← h2]
  show writeLoopF (wlMeasure (State.value :: r) ('{' :: cs) + 1) sink ec (State.value :: r) ('{' :: cs) = _
  simp [writeLoopF, hs]

/-- `case state::value`, byte `[`: emit `on_array_begin` (the source does
not check `ec` afterwards), then the placeholder `state::array_` returns at
once carrying the callback's error code. -/
theorem wl_value_arr :
    writeLoop sink ec (State.value :: r) ('[' :: cs)
      = ⟨[Ev.arrayBegin], State.array_ :: r, cs, sink Ev.arrayBegin⟩ := by
  show writeLoopF (wlMeasure (State.value :: r) ('[' :: cs) + 1) sink ec (State.value :: r) ('[' :: cs) = _
  simp only [writeLoopF]
  rw [wl_F (wlMeasure (State.value :: r) ('[' :: cs)) sink (sink Ev.arrayBegin) (State.array_ :: r) cs
    (by simp only [wlMeasure, stackW, weight, List.length_cons]; omega)]
  rfl

/-- `case state::value`, byte `"`: emit `on_string_begin` (no `ec` check),
then the placeholder `state::string` returns at once carrying the
callback's error code. -/
theorem wl_value_str :
    writeLoop sink ec (State.value :: r) ('"' :: cs)
      = ⟨[Ev.stringBegin], State.string :: r, cs, sink Ev.stringBegin⟩ := by
  show writeLoopF (wlMeasure (State.value :: r) ('"' :: cs) + 1) sink ec (State.value :: r) ('"' :: cs) = _
  simp only [writeLoopF]
  rw [wl_F (wlMeasure (State.value :: r) ('"' :: cs)) sink (sink Ev.stringBegin) (State.string :: r) cs
    (by simp only [wlMeasure, stackW, weight, List.length_cons]; omega)]
  rfl

/-- `case state::value`, byte `t`, fast path (at least four bytes remain),
lookahead matches: advance the cursor four bytes in one step and jump to the
terminal sub-state `true_4`. -/
theorem wl_value_t_fast :
    writeLoop sink ec (State.value :: r) ('t' :: 'r' :: 'u' :: 'e' :: cs) = writeLoop sink ec (State.true_4 :: r) (cs) := by
  have h2 : writeLoopF (wlMeasure (State.value :: r) ('t' :: 'r' :: 'u' :: 'e' :: cs)) sink ec (State.true_4 :: r) (cs)
      = writeLoop sink ec (State.true_4 :: r) (cs) :=
    wl_F (wlMeasure (State.value :: r) ('t' :: 'r' :: 'u' :: 'e' :: cs)) sink ec (State.true_4 :: r) (cs) (by simp only [wlMeasure, stackW, weight, List.length_cons]; omega)
  rw [← h2]
  show writeLoopF (wlMeasure (State.value :: r) ('t' :: 'r' :: 'u' :: 'e' :: cs) + 1) sink ec (State.value :: r) ('t' :: 'r' :: 'u' :: 'e' :: cs) = _
  simp [writeLoopF, isDigitCase]

/-- `case state::value`, byte `f`, fast path (at least five bytes remain),
lookahead matches: the cursor advances only FOUR bytes (`p = p + 4` in the
source), leaving the final `e` of `false` unconsumed, and jumps to
`false_5`. -/
theorem wl_value_f_fast :
    writeLoop sink ec (State.value :: r) ('f' :: 'a' :: 'l' :: 's' :: 'e' :: cs) = writeLoop sink ec (State.false_5 :: r) ('e' :: cs) := by
  have h2 : writeLoopF (wlMeasure (State.value :: r) ('f' :: 'a' :: 'l' :: 's' :: 'e' :: cs)) sink ec (State.false_5 :: r) ('e' :: cs)
      = writeLoop sink ec (State.false_5 :: r) ('e' :: cs) :=
    wl_F (wlMeasure (State.value :: r) ('f' :: 'a' :: 'l' :: 's' :: 'e' :: cs)) sink ec (State.false_5 :: r) ('e' :: cs) (by simp only [wlMeasure, stackW, weight, List.length_cons]; omega)
  rw [← h2]
  show writeLoopF (wlMeasure (State.value :: r) ('f' :: 'a' :: 'l' :: 's' :: 'e' :: cs) + 1) sink ec (State.value :: r) ('f' :: 'a' :: 'l' :: 's' :: 'e' :: cs) = _
  simp [writeLoopF, isDigitCase]

/-- `case state::value`, byte `n`, fast path, lookahead matches. -/
theorem wl_value_n_fast :
    writeLoop sink ec (State.value :: r) ('n' :: 'u' :: 'l' :: 'l' :: cs) = writeLoop sink ec (State.null_4 :: r) (cs) := by
  have h2 : writeLoopF (wlMeasure (State.value :: r) ('n' :: 'u' :: 'l' :: 'l' :: cs)) sink ec (State.null_4 :: r) (cs)
      = writeLoop sink ec (State.null_4 :: r) (cs) :=
    wl_F (wlMeasure (State.value :: r) ('n' :: 'u' :: 'l' :: 'l' :: cs)) sink ec (State.null_4 :: r) (cs) (by simp only [wlMeasure, stackW, weight, List.length_cons]; omega)
  rw [← h2]
  show writeLoopF (wlMeasure (State.value :: r) ('n' :: 'u' :: 'l' :: 'l' :: cs) + 1) sink ec (State.value :: r) ('n' :: 'u' :: 'l' :: 'l' :: cs) = _
  simp [writeLoopF, isDigitCase]

/-- `case state::value`, byte `t`, slow path (chunk too short for the
fast comparison): consume the byte and replace with `true_1`. -/
theorem wl_value_t_slow0 :
    writeLoop sink ec (State.value :: r) ('t' :: []) = writeLoop sink ec (State.true_1 :: r) ([]) := by
  have h2 : writeLoopF (wlMeasure (State.value :: r) ('t' :: [])) sink ec (State.true_1 :: r) ([])
      = writeLoop sink ec (State.true_1 :: r) ([]) :=
    wl_F (wlMeasure (State.value :: r) ('t' :: [])) sink ec (State.true_1 :: r) ([]) (by simp only [wlMeasure, stackW, weight, List.length_cons]; omega)
  rw [← h2]
  show writeLoopF (wlMeasure (State.value :: r) ('t' :: []) + 1) sink ec (State.value :: r) ('t' :: []) = _
  simp [writeLoopF, isDigitCase]

/-- `case state::value`, byte `t`, slow path (chunk too short for the
fast comparison): consume the byte and replace with `true_1`. -/
theorem wl_value_t_slow1 {c1 : Char} :
    writeLoop sink ec (State.value :: r) ('t' :: [c1]) = writeLoop sink ec (State.true_1 :: r) ([c1]) := by
  have h2 : writeLoopF (wlMeasure (State.value :: r) ('t' :: [c1])) sink ec (State.true_1 :: r) ([c1])
      = writeLoop sink ec (State.true_1 :: r) ([c1]) :=
    wl_F (wlMeasure (State.value :: r) ('t' :: [c1])) sink ec (State.true_1 :: r) ([c1]) (by simp only [wlMeasure, stackW, weight, List.length_cons]; omega)
  rw [← h2]
  show writeLoopF (wlMeasure (State.value :: r) ('t' :: [c1]) + 1) sink ec (State.value :: r) ('t' :: [c1]) = _
  simp [writeLoopF, isDigitCase]

/-- `case state::value`, byte `t`, slow path (chunk too short for the
fast comparison): consume the byte and replace with `true_1`. -/
theorem wl_value_t_slow2 {c1 c2 : Char} :
    writeLoop sink ec (State.value :: r) ('t' :: [c1, c2]) = writeLoop sink ec (State.true_1 :: r) ([c1, c2]) := by
  have h2 : writeLoopF (wlMeasure (State.value :: r) ('t' :: [c1, c2])) sink ec (State.true_1 :: r) ([c1, c2])
      = writeLoop sink ec (State.true_1 :: r) ([c1, c2]) :=
    wl_F (wlMeasure (State.value :: r) ('t' :: [c1, c2])) sink ec (State.true_1 :: r) ([c1, c2]) (by simp only [wlMeasure, stackW, weight, List.length_cons]; omega)
  rw [← h2]
  show writeLoopF (wlMeasure (State.value :: r) ('t' :: [c1, c2]) + 1) sink ec (State.value :: r) ('t' :: [c1, c2]) = _
  simp [writeLoopF, isDigitCase]

/-- `case state::value`, byte `f`, slow path (chunk too short for the
fast comparison): consume the byte and replace with `false_1`. -/
theorem wl_value_f_slow0 :
    writeLoop sink ec (State.value :: r) ('f' :: []) = writeLoop sink ec (State.false_1 :: r) ([]) := by
  have h2 : writeLoopF (wlMeasure (State.value :: r) ('f' :: [])) sink ec (State.false_1 :: r) ([])
      = writeLoop sink ec (State.false_1 :: r) ([]) :=
    wl_F (wlMeasure (State.value :: r) ('f' :: [])) sink ec (State.false_1 :: r) ([]) (by simp only [wlMeasure, stackW, weight, List.length_cons]; omega)
  rw [← h2]
  show writeLoopF (wlMeasure (State.value :: r) ('f' :: []) + 1) sink ec (State.value :: r) ('f' :: []) = _
  simp [writeLoopF, isDigitCase]

/-- `case state::value`, byte `f`, slow path (chunk too short for the
fast comparison): consume the byte and replace with `false_1`. -/
theorem wl_value_f_slow1 {c1 : Char} :
    writeLoop sink ec (State.value :: r) ('f' :: [c1]) = writeLoop sink ec (State.false_1 :: r) ([c1]) := by
  have h2 : writeLoopF (wlMeasure (State.value :: r) ('f' :: [c1])) sink ec (State.false_1 :: r) ([c1])
      = writeLoop sink ec (State.false_1 :: r) ([c1]) :=
    wl_F (wlMeasure (State.value :: r) ('f' :: [c1])) sink ec (State.false_1 :: r) ([c1]) (by simp only [wlMeasure, stackW, weight, List.length_cons]; omega)
  rw [← h2]
  show writeLoopF (wlMeasure (State.value :: r) ('f' :: [c1]) + 1) sink ec (State.value :: r) ('f' :: [c1]) = _
  simp [writeLoopF, isDigitCase]

/-- `case state::value`, byte `f`, slow path (chunk too short for the
fast comparison): consume the byte and replace with `false_1`. -/
theorem wl_value_f_slow2 {c1 c2 : Char} :
    writeLoop sink ec (State.value :: r) ('f' :: [c1, c2]) = writeLoop sink ec (State.false_1 :: r) ([c1, c2]) := by
  have h2 : writeLoopF (wlMeasure (State.value :: r) ('f' :: [c1, c2])) sink ec (State.false_1 :: r) ([c1, c2])
      = writeLoop sink ec (State.false_1 :: r) ([c1, c2]) :=
    wl_F (wlMeasure (State.value :: r) ('f' :: [c1, c2])) sink ec (State.false_1 :: r) ([c1, c2]) (by simp only [wlMeasure, stackW, weight, List.length_cons]; omega)
  rw [← h2]
  show writeLoopF (wlMeasure (State.value :: r) ('f' :: [c1, c2]) + 1) sink ec (State.value :: r) ('f' :: [c1, c2]) = _
  simp [writeLoopF, isDigitCase]

/-- `case state::value`, byte `f`, slow path (chunk too short for the
fast comparison): consume the byte and replace with `false_1`. -/
theorem wl_value_f_slow3 {c1 c2 c3 : Char} :
    writeLoop sink ec (State.value :: r) ('f' :: [c1, c2, c3]) = writeLoop sink ec (State.false_1 :: r) ([c1, c2, c3]) := by
  have h2 : writeLoopF (wlMeasure (State.value :: r) ('f' :: [c1, c2, c3])) sink ec (State.false_1 :: r) ([c1, c2, c3])
      = writeLoop sink ec (State.false_1 :: r) ([c1, c2, c3]) :=
    wl_F (wlMeasure (State.value :: r) ('f' :: [c1, c2, c3])) sink ec (State.false_1 :: r) ([c1, c2, c3]) (by simp only [wlMeasure, stackW, weight, List.length_cons]; omega)
  rw [← h2]
  show writeLoopF (wlMeasure (State.value :: r) ('f' :: [c1, c2, c3]) + 1) sink ec (State.value :: r) ('f' :: [c1, c2, c3]) = _
  simp [writeLoopF, isDigitCase]

/-- `case state::value`, byte `n`, slow path (chunk too short for the
fast comparison): consume the byte and replace with `null_1`. -/
theorem wl_value_n_slow0 :
    writeLoop sink ec (State.value :: r) ('n' :: []) = writeLoop sink ec (State.null_1 :: r) ([]) := by
  have h2 : writeLoopF (wlMeasure (State.value :: r) ('n' :: [])) sink ec (State.null_1 :: r) ([])
      = writeLoop sink ec (State.null_1 :: r) ([]) :=
    wl_F (wlMeasure (State.value :: r) ('n' :: [])) sink ec (State.null_1 :: r) ([]) (by simp only [wlMeasure, stackW, weight, List.length_cons]; omega)
  rw [← h2]
  show writeLoopF (wlMeasure (State.value :: r) ('n' :: []) + 1) sink ec (State.value :: r) ('n' :: []) = _
  simp [writeLoopF, isDigitCase]

/-- `case state::value`, byte `n`, slow path (chunk too short for the
fast comparison): consume the byte and replace with `null_1`. -/
theorem wl_value_n_slow1 {c1 : Char} :
    writeLoop sink ec (State.value :: r) ('n' :: [c1]) = writeLoop sink ec (State.null_1 :: r) ([c1]) := by
  have h2 : writeLoopF (wlMeasure (State.value :: r) ('n' :: [c1])) sink ec (State.null_1 :: r) ([c1])
      = writeLoop sink ec (State.null_1 :: r) ([c1]) :=
    wl_F (wlMeasure (State.value :: r) ('n' :: [c1])) sink ec (State.null_1 :: r) ([c1]) (by simp only [wlMeasure, stackW, weight, List.length_cons]; omega)
  rw [← h2]
  show writeLoopF (wlMeasure (State.value :: r) ('n' :: [c1]) + 1) sink ec (State.value :: r) ('n' :: [c1]) = _
  simp [writeLoopF, isDigitCase]

/-- `case state::value`, byte `n`, slow path (chunk too short for the
fast comparison): consume the byte and replace with `null_1`. -/
theorem wl_value_n_slow2 {c1 c2 : Char} :
    writeLoop sink ec (State.value :: r) ('n' :: [c1, c2]) = writeLoop sink ec (State.null_1 :: r) ([c1, c2]) := by
  have h2 : writeLoopF (wlMeasure (State.value :: r) ('n' :: [c1, c2])) sink ec (State.null_1 :: r) ([c1, c2])
      = writeLoop sink ec (State.null_1 :: r) ([c1, c2]) :=
    wl_F (wlMeasure (State.value :: r) ('n' :: [c1, c2])) sink ec (State.null_1 :: r) ([c1, c2]) (by simp only [wlMeasure, stackW, weight, List.length_cons]; omega)
  rw [← h2]
  show writeLoopF (wlMeasure (State.value :: r) ('n' :: [c1, c2]) + 1) sink ec (State.value :: r) ('n' :: [c1, c2]) = _
  simp [writeLoopF, isDigitCase]

/-- `case state::value`, digit byte: the digit is consumed (`++p`) and the
parser descends into the placeholder `number` state, which returns at once. -/
theorem wl_value_digit (hd : isDigitCase c = true) :
    writeLoop sink ec (State.value :: r) (c :: cs) = ⟨[], State.number :: r, cs, ec⟩ := by
  show writeLoopF (wlMeasure (State.value :: r) (c :: cs) + 1) sink ec (State.value :: r) (c :: cs) = _
  simp [writeLoopF, hd]
  have h1 : c ≠ '{' := by intro h; subst h; simp [isDigitCase] at hd
  have h2 : c ≠ '[' := by intro h; subst h; simp [isDigitCase] at hd
  have h3 : c ≠ '"' := by intro h; subst h; simp [isDigitCase] at hd
  simp only [h1, h2, h3, ite_false, if_false]
  rw [wl_F (wlMeasure (State.value :: r) (c :: cs)) sink ec (State.number :: r) cs (by simp only [wlMeasure, stackW, weight, List.length_cons]; omega)]
  exact wl_number

/-- `case state::value`, `default:`: a byte matching no production is an
immediate syntax error, nothing consumed, stack unchanged. -/
theorem wl_value_err (h1 : c ≠ '{') (h2 : c ≠ '[') (h3 : c ≠ '"') (h4 : isDigitCase c = false) (h5 : c ≠ 't') (h6 : c ≠ 'f') (h7 : c ≠ 'n') :
    writeLoop sink ec (State.value :: r) (c :: cs) = ⟨[], State.value :: r, c :: cs, some ErrC.syntaxErr⟩ := by
  show writeLoopF (wlMeasure (State.value :: r) (c :: cs) + 1) sink ec (State.value :: r) (c :: cs) = _
  simp [writeLoopF, h1, h2, h3, h4, h5, h6, h7]

/-- `case state::object`, whitespace byte: consume one and push `ws`. -/
theorem wl_object_ws (hw : is_ws c = true) :
    writeLoop sink ec (State.object :: r) (c :: cs) = writeLoop sink ec (State.ws :: State.object :: r) (cs) := by
  have h2 : writeLoopF (wlMeasure (State.object :: r) (c :: cs)) sink ec (State.ws :: State.object :: r) (cs)
      = writeLoop sink ec (State.ws :: State.object :: r) (cs) :=
    wl_F (wlMeasure (State.object :: r) (c :: cs)) sink ec (State.ws :: State.object :: r) (cs) (by simp only [wlMeasure, stackW, weight, List.length_cons]; omega)
  rw [← h2]
  show writeLoopF (wlMeasure (State.object :: r) (c :: cs) + 1) sink ec (State.object :: r) (c :: cs) = _
  simp [writeLoopF, hw]

/-- `case state::object`, byte `}`, callback failure: return its error
before the pop. -/
theorem wl_object_close_err (hs : sink Ev.objectEnd = some e) :
    writeLoop sink ec (State.object :: r) ('}' :: cs) = ⟨[Ev.objectEnd], State.object :: r, cs, some e⟩ := by
  show writeLoopF (wlMeasure (State.object :: r) ('}' :: cs) + 1) sink ec (State.object :: r) ('}' :: cs) = _
  simp [writeLoopF, is_ws, hs]

/-- `case state::object`, byte `}`, callback success: consume, emit
`on_object_end`, pop. -/
theorem wl_object_close_ok (hs : sink Ev.objectEnd = none) :
    writeLoop sink ec (State.object :: r) ('}' :: cs)
      = WriteRes.consEv Ev.objectEnd (writeLoop sink none r cs) := by
  have h2 : writeLoopF (wlMeasure (State.object :: r) ('}' :: cs)) sink none (r) (cs)
      = writeLoop sink none (r) (cs) :=
    wl_F (wlMeasure (State.object :: r) ('}' :: cs)) sink none (r) (cs) (by simp only [wlMeasure, stackW, weight, List.length_cons]; omega)
  rw [← h2]
  show writeLoopF (wlMeasure (State.object :: r) ('}' :: cs) + 1) sink ec (State.object :: r) ('}' :: cs) = _
  simp [writeLoopF, is_ws, hs]

/-- `case state::object`, other byte: replace with `member` and
re-dispatch without consuming. -/
theorem wl_object_member (hw : is_ws c = false) (hc : c ≠ '}') :
    writeLoop sink ec (State.object :: r) (c :: cs) = writeLoop sink ec (State.member :: r) (c :: cs) := by
  have h2 : writeLoopF (wlMeasure (State.object :: r) (c :: cs)) sink ec (State.member :: r) (c :: cs)
      = writeLoop sink ec (State.member :: r) (c :: cs) :=
    wl_F (wlMeasure (State.object :: r) (c :: cs)) sink ec (State.member :: r) (c :: cs) (by simp only [wlMeasure, stackW, weight, List.length_cons]; omega)
  rw [← h2]
  show writeLoopF (wlMeasure (State.object :: r) (c :: cs) + 1) sink ec (State.object :: r) (c :: cs) = _
  simp [writeLoopF, hw, hc]

/-- `case state::member`: replace with `members` and push `element`,
`colon`, `ws`, `string` (so the key string is processed first); the `string`
placeholder on top then returns at once, consuming nothing. -/
theorem wl_member :
    writeLoop sink ec (State.member :: r) inp
      = ⟨[], State.string :: State.ws :: State.colon :: State.element :: State.members :: r,
          inp, ec⟩ := by
  have h2 : writeLoopF (wlMeasure (State.member :: r) inp) sink ec
      (State.string :: State.ws :: State.colon :: State.element :: State.members :: r) inp
      = writeLoop sink ec
        (State.string :: State.ws :: State.colon :: State.element :: State.members :: r) inp :=
    wl_F (wlMeasure (State.member :: r) inp) sink ec _ inp (by simp only [wlMeasure, stackW, weight, List.length_cons]; omega)
  calc writeLoop sink ec (State.member :: r) inp
      = writeLoop sink ec
          (State.string :: State.ws :: State.colon :: State.element :: State.members :: r) inp := by
        rw [← h2]
        show writeLoopF (wlMeasure (State.member :: r) inp + 1) sink ec (State.member :: r) inp = _
        simp [writeLoopF]
    _ = ⟨[], State.string :: State.ws :: State.colon :: State.element :: State.members :: r,
          inp, ec⟩ := wl_string

/-- `case state::members`, byte other than `}`: break without consuming
and without error. -/
theorem wl_members_break (hc : c ≠ '}') :
    writeLoop sink ec (State.members :: r) (c :: cs) = ⟨[], State.members :: r, c :: cs, ec⟩ := by
  show writeLoopF (wlMeasure (State.members :: r) (c :: cs) + 1) sink ec (State.members :: r) (c :: cs) = _
  simp [writeLoopF, hc]

/-- `case state::members`, byte `}`, callback failure. -/
theorem wl_members_close_err (hs : sink Ev.objectEnd = some e) :
    writeLoop sink ec (State.members :: r) ('}' :: cs) = ⟨[Ev.objectEnd], State.members :: r, cs, some e⟩ := by
  show writeLoopF (wlMeasure (State.members :: r) ('}' :: cs) + 1) sink ec (State.members :: r) ('}' :: cs) = _
  simp [writeLoopF, hs]

/-- `case state::members`, byte `}`, callback success: consume and emit
`on_object_end`, but `break` without popping `members`. -/
theorem wl_members_close_ok (hs : sink Ev.objectEnd = none) :
    writeLoop sink ec (State.members :: r) ('}' :: cs) = ⟨[Ev.objectEnd], State.members :: r, cs, none⟩ := by
  show writeLoopF (wlMeasure (State.members :: r) ('}' :: cs) + 1) sink ec (State.members :: r) ('}' :: cs) = _
  simp [writeLoopF, hs]

/-- `case state::colon`, non-colon byte: syntax error. -/
theorem wl_colon_err (hc : c ≠ ':') :
    writeLoop sink ec (State.colon :: r) (c :: cs) = ⟨[], State.colon :: r, c :: cs, some ErrC.syntaxErr⟩ := by
  show writeLoopF (wlMeasure (State.colon :: r) (c :: cs) + 1) sink ec (State.colon :: r) (c :: cs) = _
  simp [writeLoopF, hc]

/-- `case state::colon`, byte `:`: consume and pop. -/
theorem wl_colon_ok :
    writeLoop sink ec (State.colon :: r) (':' :: cs) = writeLoop sink ec (r) (cs) := by
  have h2 : writeLoopF (wlMeasure (State.colon :: r) (':' :: cs)) sink ec (r) (cs)
      = writeLoop sink ec (r) (cs) :=
    wl_F (wlMeasure (State.colon :: r) (':' :: cs)) sink ec (r) (cs) (by simp only [wlMeasure, stackW, weight, List.length_cons]; omega)
  rw [← h2]
  show writeLoopF (wlMeasure (State.colon :: r) (':' :: cs) + 1) sink ec (State.colon :: r) (':' :: cs) = _
  simp [writeLoopF]

/-- `case state::true_1`, wrong byte: syntax error. -/
theorem wl_true1_err (hc : c ≠ 'r') :
    writeLoop sink ec (State.true_1 :: r) (c :: cs) = ⟨[], State.true_1 :: r, c :: cs, some ErrC.syntaxErr⟩ := by
  show writeLoopF (wlMeasure (State.true_1 :: r) (c :: cs) + 1) sink ec (State.true_1 :: r) (c :: cs) = _
  simp [writeLoopF, hc]

/-- `case state::true_1`, byte 'r': consume and advance to `true_2`. -/
theorem wl_true1_ok :
    writeLoop sink ec (State.true_1 :: r) ('r' :: cs) = writeLoop sink ec (State.true_2 :: r) (cs) := by
  have h2 : writeLoopF (wlMeasure (State.true_1 :: r) ('r' :: cs)) sink ec (State.true_2 :: r) (cs)
      = writeLoop sink ec (State.true_2 :: r) (cs) :=
    wl_F (wlMeasure (State.true_1 :: r) ('r' :: cs)) sink ec (State.true_2 :: r) (cs) (by simp only [wlMeasure, stackW, weight, List.length_cons]; omega)
  rw [← h2]
  show writeLoopF (wlMeasure (State.true_1 :: r) ('r' :: cs) + 1) sink ec (State.true_1 :: r) ('r' :: cs) = _
  simp [writeLoopF]

/-- `case state::true_2`, wrong byte: syntax error. -/
theorem wl_true2_err (hc : c ≠ 'u') :
    writeLoop sink ec (State.true_2 :: r) (c :: cs) = ⟨[], State.true_2 :: r, c :: cs, some ErrC.syntaxErr⟩ := by
  show writeLoopF (wlMeasure (State.true_2 :: r) (c :: cs) + 1) sink ec (State.true_2 :: r) (c :: cs) = _
  simp [writeLoopF, hc]

/-- `case state::true_2`, byte 'u': consume and advance to `true_3`. -/
theorem wl_true2_ok :
    writeLoop sink ec (State.true_2 :: r) ('u' :: cs) = writeLoop sink ec (State.true_3 :: r) (cs) := by
  have h2 : writeLoopF (wlMeasure (State.true_2 :: r) ('u' :: cs)) sink ec (State.true_3 :: r) (cs)
      = writeLoop sink ec (State.true_3 :: r) (cs) :=
    wl_F (wlMeasure (State.true_2 :: r) ('u' :: cs)) sink ec (State.true_3 :: r) (cs) (by simp only [wlMeasure, stackW, weight, List.length_cons]; omega)
  rw [← h2]
  show writeLoopF (wlMeasure (State.true_2 :: r) ('u' :: cs) + 1) sink ec (State.true_2 :: r) ('u' :: cs) = _
  simp [writeLoopF]

/-- `case state::true_3`, wrong byte: syntax error. -/
theorem wl_true3_err (hc : c ≠ 'e') :
    writeLoop sink ec (State.true_3 :: r) (c :: cs) = ⟨[], State.true_3 :: r, c :: cs, some ErrC.syntaxErr⟩ := by
  show writeLoopF (wlMeasure (State.true_3 :: r) (c :: cs) + 1) sink ec (State.true_3 :: r) (c :: cs) = _
  simp [writeLoopF, hc]

/-- `case state::true_3`, byte 'e': consume and advance to `true_4`. -/
theorem wl_true3_ok :
    writeLoop sink ec (State.true_3 :: r) ('e' :: cs) = writeLoop sink ec (State.true_4 :: r) (cs) := by
  have h2 : writeLoopF (wlMeasure (State.true_3 :: r) ('e' :: cs)) sink ec (State.true_4 :: r) (cs)
      = writeLoop sink ec (State.true_4 :: r) (cs) :=
    wl_F (wlMeasure (State.true_3 :: r) ('e' :: cs)) sink ec (State.true_4 :: r) (cs) (by simp only [wlMeasure, stackW, weight, List.length_cons]; omega)
  rw [← h2]
  show writeLoopF (wlMeasure (State.true_3 :: r) ('e' :: cs) + 1) sink ec (State.true_3 :: r) ('e' :: cs) = _
  simp [writeLoopF]

/-- `case state::false_1`, wrong byte: syntax error. -/
theorem wl_false1_err (hc : c ≠ 'a') :
    writeLoop sink ec (State.false_1 :: r) (c :: cs) = ⟨[], State.false_1 :: r, c :: cs, some ErrC.syntaxErr⟩ := by
  show writeLoopF (wlMeasure (State.false_1 :: r) (c :: cs) + 1) sink ec (State.false_1 :: r) (c :: cs) = _
  simp [writeLoopF, hc]

/-- `case state::false_1`, byte 'a': consume and advance to `false_2`. -/
theorem wl_false1_ok :
    writeLoop sink ec (State.false_1 :: r) ('a' :: cs) = writeLoop sink ec (State.false_2 :: r) (cs) := by
  have h2 : writeLoopF (wlMeasure (State.false_1 :: r) ('a' :: cs)) sink ec (State.false_2 :: r) (cs)
      = writeLoop sink ec (State.false_2 :: r) (cs) :=
    wl_F (wlMeasure (State.false_1 :: r) ('a' :: cs)) sink ec (State.false_2 :: r) (cs) (by simp only [wlMeasure, stackW, weight, List.length_cons]; omega)
  rw [← h2]
  show writeLoopF (wlMeasure (State.false_1 :: r) ('a' :: cs) + 1) sink ec (State.false_1 :: r) ('a' :: cs) = _
  simp [writeLoopF]

/-- `case state::false_2`, wrong byte: syntax error. -/
theorem wl_false2_err (hc : c ≠ 'l') :
    writeLoop sink ec (State.false_2 :: r) (c :: cs) = ⟨[], State.false_2 :: r, c :: cs, some ErrC.syntaxErr⟩ := by
  show writeLoopF (wlMeasure (State.false_2 :: r) (c :: cs) + 1) sink ec (State.false_2 :: r) (c :: cs) = _
  simp [writeLoopF, hc]

/-- `case state::false_2`, byte 'l': consume and advance to `false_3`. -/
theorem wl_false2_ok :
    writeLoop sink ec (State.false_2 :: r) ('l' :: cs) = writeLoop sink ec (State.false_3 :: r) (cs) := by
  have h2 : writeLoopF (wlMeasure (State.false_2 :: r) ('l' :: cs)) sink ec (State.false_3 :: r) (cs)
      = writeLoop sink ec (State.false_3 :: r) (cs) :=
    wl_F (wlMeasure (State.false_2 :: r) ('l' :: cs)) sink ec (State.false_3 :: r) (cs) (by simp only [wlMeasure, stackW, weight, List.length_cons]; omega)
  rw [← h2]
  show writeLoopF (wlMeasure (State.false_2 :: r) ('l' :: cs) + 1) sink ec (State.false_2 :: r) ('l' :: cs) = _
  simp [writeLoopF]

/-- `case state::false_3`, wrong byte: syntax error. -/
theorem wl_false3_err (hc : c ≠ 's') :
    writeLoop sink ec (State.false_3 :: r) (c :: cs) = ⟨[], State.false_3 :: r, c :: cs, some ErrC.syntaxErr⟩ := by
  show writeLoopF (wlMeasure (State.false_3 :: r) (c :: cs) + 1) sink ec (State.false_3 :: r) (c :: cs) = _
  simp [writeLoopF, hc]

/-- `case state::false_3`, byte 's': consume and advance to `false_4`. -/
theorem wl_false3_ok :
    writeLoop sink ec (State.false_3 :: r) ('s' :: cs) = writeLoop sink ec (State.false_4 :: r) (cs) := by
  have h2 : writeLoopF (wlMeasure (State.false_3 :: r) ('s' :: cs)) sink ec (State.false_4 :: r) (cs)
      = writeLoop sink ec (State.false_4 :: r) (cs) :=
    wl_F (wlMeasure (State.false_3 :: r) ('s' :: cs)) sink ec (State.false_4 :: r) (cs) (by simp only [wlMeasure, stackW, weight, List.length_cons]; omega)
  rw [← h2]
  show writeLoopF (wlMeasure (State.false_3 :: r) ('s' :: cs) + 1) sink ec (State.false_3 :: r) ('s' :: cs) = _
  simp [writeLoopF]

/-- `case state::false_4`, wrong byte: syntax error. -/
theorem wl_false4_err (hc : c ≠ 'e') :
    writeLoop sink ec (State.false_4 :: r) (c :: cs) = ⟨[], State.false_4 :: r, c :: cs, some ErrC.syntaxErr⟩ := by
  show writeLoopF (wlMeasure (State.false_4 :: r) (c :: cs) + 1) sink ec (State.false_4 :: r) (c :: cs) = _
  simp [writeLoopF, hc]

/-- `case state::false_4`, byte 'e': consume and advance to `false_5`. -/
theorem wl_false4_ok :
    writeLoop sink ec (State.false_4 :: r) ('e' :: cs) = writeLoop sink ec (State.false_5 :: r) (cs) := by
  have h2 : writeLoopF (wlMeasure (State.false_4 :: r) ('e' :: cs)) sink ec (State.false_5 :: r) (cs)
      = writeLoop sink ec (State.false_5 :: r) (cs) :=
    wl_F (wlMeasure (State.false_4 :: r) ('e' :: cs)) sink ec (State.false_5 :: r) (cs) (by simp only [wlMeasure, stackW, weight, List.length_cons]; omega)
  rw [← h2]
  show writeLoopF (wlMeasure (State.false_4 :: r) ('e' :: cs) + 1) sink ec (State.false_4 :: r) ('e' :: cs) = _
  simp [writeLoopF]

/-- `case state::null_1`, wrong byte: syntax error. -/
theorem wl_null1_err (hc : c ≠ 'u') :
    writeLoop sink ec (State.null_1 :: r) (c :: cs) = ⟨[], State.null_1 :: r, c :: cs, some ErrC.syntaxErr⟩ := by
  show writeLoopF (wlMeasure (State.null_1 :: r) (c :: cs) + 1) sink ec (State.null_1 :: r) (c :: cs) = _
  simp [writeLoopF, hc]

/-- `case state::null_1`, byte 'u': consume and advance to `null_2`. -/
theorem wl_null1_ok :
    writeLoop sink ec (State.null_1 :: r) ('u' :: cs) = writeLoop sink ec (State.null_2 :: r) (cs) := by
  have h2 : writeLoopF (wlMeasure (State.null_1 :: r) ('u' :: cs)) sink ec (State.null_2 :: r) (cs)
      = writeLoop sink ec (State.null_2 :: r) (cs) :=
    wl_F (wlMeasure (State.null_1 :: r) ('u' :: cs)) sink ec (State.null_2 :: r) (cs) (by simp only [wlMeasure, stackW, weight, List.length_cons]; omega)
  rw [← h2]
  show writeLoopF (wlMeasure (State.null_1 :: r) ('u' :: cs) + 1) sink ec (State.null_1 :: r) ('u' :: cs) = _
  simp [writeLoopF]

/-- `case state::null_2`, wrong byte: syntax error. -/
theorem wl_null2_err (hc : c ≠ 'l') :
    writeLoop sink ec (State.null_2 :: r) (c :: cs) = ⟨[], State.null_2 :: r, c :: cs, some ErrC.syntaxErr⟩ := by
  show writeLoopF (wlMeasure (State.null_2 :: r) (c :: cs) + 1) sink ec (State.null_2 :: r) (c :: cs) = _
  simp [writeLoopF, hc]

/-- `case state::null_2`, byte 'l': consume and advance to `null_3`. -/
theorem wl_null2_ok :
    writeLoop sink ec (State.null_2 :: r) ('l' :: cs) = writeLoop sink ec (State.null_3 :: r) (cs) := by
  have h2 : writeLoopF (wlMeasure (State.null_2 :: r) ('l' :: cs)) sink ec (State.null_3 :: r) (cs)
      = writeLoop sink ec (State.null_3 :: r) (cs) :=
    wl_F (wlMeasure (State.null_2 :: r) ('l' :: cs)) sink ec (State.null_3 :: r) (cs) (by simp only [wlMeasure, stackW, weight, List.length_cons]; omega)
  rw [← h2]
  show writeLoopF (wlMeasure (State.null_2 :: r) ('l' :: cs) + 1) sink ec (State.null_2 :: r) ('l' :: cs) = _
  simp [writeLoopF]

/-- `case state::null_3`, wrong byte: syntax error. -/
theorem wl_null3_err (hc : c ≠ 'l') :
    writeLoop sink ec (State.null_3 :: r) (c :: cs) = ⟨[], State.null_3 :: r, c :: cs, some ErrC.syntaxErr⟩ := by
  show writeLoopF (wlMeasure (State.null_3 :: r) (c :: cs) + 1) sink ec (State.null_3 :: r) (c :: cs) = _
  simp [writeLoopF, hc]

/-- `case state::null_3`, byte 'l': consume and advance to `null_4`. -/
theorem wl_null3_ok :
    writeLoop sink ec (State.null_3 :: r) ('l' :: cs) = writeLoop sink ec (State.null_4 :: r) (cs) := by
  have h2 : writeLoopF (wlMeasure (State.null_3 :: r) ('l' :: cs)) sink ec (State.null_4 :: r) (cs)
      = writeLoop sink ec (State.null_4 :: r) (cs) :=
    wl_F (wlMeasure (State.null_3 :: r) ('l' :: cs)) sink ec (State.null_4 :: r) (cs) (by simp only [wlMeasure, stackW, weight, List.length_cons]; omega)
  rw [← h2]
  show writeLoopF (wlMeasure (State.null_3 :: r) ('l' :: cs) + 1) sink ec (State.null_3 :: r) ('l' :: cs) = _
  simp [writeLoopF]

/-- `case state::true_4`: the terminal sub-state fires the callback; on
failure it returns before the pop. -/
theorem wl_true4_err (hs : sink Ev.trueLit = some e) :
    writeLoop sink ec (State.true_4 :: r) (inp) = ⟨[Ev.trueLit], State.true_4 :: r, inp, some e⟩ := by
  show writeLoopF (wlMeasure (State.true_4 :: r) (inp) + 1) sink ec (State.true_4 :: r) (inp) = _
  simp [writeLoopF, hs]

/-- `case state::true_4`: on callback success, pop and re-dispatch on the
same input. -/
theorem wl_true4_ok (hs : sink Ev.trueLit = none) :
    writeLoop sink ec (State.true_4 :: r) (inp)
      = WriteRes.consEv Ev.trueLit (writeLoop sink none r inp) := by
  have h2 : writeLoopF (wlMeasure (State.true_4 :: r) (inp)) sink none (r) (inp)
      = writeLoop sink none (r) (inp) :=
    wl_F (wlMeasure (State.true_4 :: r) (inp)) sink none (r) (inp) (by simp only [wlMeasure, stackW, weight, List.length_cons]; omega)
  rw [← h2]
  show writeLoopF (wlMeasure (State.true_4 :: r) (inp) + 1) sink ec (State.true_4 :: r) (inp) = _
  simp [writeLoopF, hs]

/-- `case state::false_5`: the terminal sub-state fires the callback; on
failure it returns before the pop. -/
theorem wl_false5_err (hs : sink Ev.falseLit = some e) :
    writeLoop sink ec (State.false_5 :: r) (inp) = ⟨[Ev.falseLit], State.false_5 :: r, inp, some e⟩ := by
  show writeLoopF (wlMeasure (State.false_5 :: r) (inp) + 1) sink ec (State.false_5 :: r) (inp) = _
  simp [writeLoopF, hs]

/-- `case state::false_5`: on callback success, pop and re-dispatch on the
same input. -/
theorem wl_false5_ok (hs : sink Ev.falseLit = none) :
    writeLoop sink ec (State.false_5 :: r) (inp)
      = WriteRes.consEv Ev.falseLit (writeLoop sink none r inp) := by
  have h2 : writeLoopF (wlMeasure (State.false_5 :: r) (inp)) sink none (r) (inp)
      = writeLoop sink none (r) (inp) :=
    wl_F (wlMeasure (State.false_5 :: r) (inp)) sink none (r) (inp) (by simp only [wlMeasure, stackW, weight, List.length_cons]; omega)
  rw [← h2]
  show writeLoopF (wlMeasure (State.false_5 :: r) (inp) + 1) sink ec (State.false_5 :: r) (inp) = _
  simp [writeLoopF, hs]

/-- `case state::null_4`: the terminal sub-state fires the callback; on
failure it returns before the pop. -/
theorem wl_null4_err (hs : sink Ev.nullLit = some e) :
    writeLoop sink ec (State.null_4 :: r) (inp) = ⟨[Ev.nullLit], State.null_4 :: r, inp, some e⟩ := by
  show writeLoopF (wlMeasure (State.null_4 :: r) (inp) + 1) sink ec (State.null_4 :: r) (inp) = _
  simp [writeLoopF, hs]

/-- `case state::null_4`: on callback success, pop and re-dispatch on the
same input. -/
theorem wl_null4_ok (hs : sink Ev.nullLit = none) :
    writeLoop sink ec (State.null_4 :: r) (inp)
      = WriteRes.consEv Ev.nullLit (writeLoop sink none r inp) := by
  have h2 : writeLoopF (wlMeasure (State.null_4 :: r) (inp)) sink none (r) (inp)
      = writeLoop sink none (r) (inp) :=
    wl_F (wlMeasure (State.null_4 :: r) (inp)) sink none (r) (inp) (by simp only [wlMeasure, stackW, weight, List.length_cons]; omega)
  rw [← h2]
  show writeLoopF (wlMeasure (State.null_4 :: r) (inp) + 1) sink ec (State.null_4 :: r) (inp) = _
  simp [writeLoopF, hs]

/-- `case state::value`, byte `t`, fast path, mismatch in the first
lookahead byte: syntax error, nothing consumed, stack unchanged. -/
theorem wl_value_t_err1 {c1 c2 c3 : Char} {rest : List Char} (h : c1 ≠ 'r') :
    writeLoop sink ec (State.value :: r) ('t' :: c1 :: c2 :: c3 :: rest)
      = ⟨[], State.value :: r, 't' :: c1 :: c2 :: c3 :: rest, some ErrC.syntaxErr⟩ := by
  show writeLoopF (wlMeasure (State.value :: r) ('t' :: c1 :: c2 :: c3 :: rest) + 1)
    sink ec (State.value :: r) ('t' :: c1 :: c2 :: c3 :: rest) = _
  simp [writeLoopF, isDigitCase, h]

theorem wl_value_t_err2 {c2 c3 : Char} {rest : List Char} (h : c2 ≠ 'u') :
    writeLoop sink ec (State.value :: r) ('t' :: 'r' :: c2 :: c3 :: rest)
      = ⟨[], State.value :: r, 't' :: 'r' :: c2 :: c3 :: rest, some ErrC.syntaxErr⟩ := by
  show writeLoopF (wlMeasure (State.value :: r) ('t' :: 'r' :: c2 :: c3 :: rest) + 1)
    sink ec (State.value :: r) ('t' :: 'r' :: c2 :: c3 :: rest) = _
  simp [writeLoopF, isDigitCase, h]

theorem wl_value_t_err3 {c3 : Char} {rest : List Char} (h : c3 ≠ 'e') :
    writeLoop sink ec (State.value :: r) ('t' :: 'r' :: 'u' :: c3 :: rest)
      = ⟨[], State.value :: r, 't' :: 'r' :: 'u' :: c3 :: rest, some ErrC.syntaxErr⟩ := by
  show writeLoopF (wlMeasure (State.value :: r) ('t' :: 'r' :: 'u' :: c3 :: rest) + 1)
    sink ec (State.value :: r) ('t' :: 'r' :: 'u' :: c3 :: rest) = _
  simp [writeLoopF, isDigitCase, h]

/-- `case state::value`, byte `f`, fast path, mismatches. -/
theorem wl_value_f_err1 {c1 c2 c3 c4 : Char} {rest : List Char} (h : c1 ≠ 'a') :
    writeLoop sink ec (State.value :: r) ('f' :: c1 :: c2 :: c3 :: c4 :: rest)
      = ⟨[], State.value :: r, 'f' :: c1 :: c2 :: c3 :: c4 :: rest, some ErrC.syntaxErr⟩ := by
  show writeLoopF (wlMeasure (State.value :: r) ('f' :: c1 :: c2 :: c3 :: c4 :: rest) + 1)
    sink ec (State.value :: r) ('f' :: c1 :: c2 :: c3 :: c4 :: rest) = _
  simp [writeLoopF, isDigitCase, h]

theorem wl_value_f_err2 {c2 c3 c4 : Char} {rest : List Char} (h : c2 ≠ 'l') :
    writeLoop sink ec (State.value :: r) ('f' :: 'a' :: c2 :: c3 :: c4 :: rest)
      = ⟨[], State.value :: r, 'f' :: 'a' :: c2 :: c3 :: c4 :: rest, some ErrC.syntaxErr⟩ := by
  show writeLoopF (wlMeasure (State.value :: r) ('f' :: 'a' :: c2 :: c3 :: c4 :: rest) + 1)
    sink ec (State.value :: r) ('f' :: 'a' :: c2 :: c3 :: c4 :: rest) = _
  simp [writeLoopF, isDigitCase, h]

theorem wl_value_f_err3 {c3 c4 : Char} {rest : List Char} (h : c3 ≠ 's') :
    writeLoop sink ec (State.value :: r) ('f' :: 'a' :: 'l' :: c3 :: c4 :: rest)
      = ⟨[], State.value :: r, 'f' :: 'a' :: 'l' :: c3 :: c4 :: rest, some ErrC.syntaxErr⟩ := by
  show writeLoopF (wlMeasure (State.value :: r) ('f' :: 'a' :: 'l' :: c3 :: c4 :: rest) + 1)
    sink ec (State.value :: r) ('f' :: 'a' :: 'l' :: c3 :: c4 :: rest) = _
  simp [writeLoopF, isDigitCase, h]

theorem wl_value_f_err4 {c4 : Char} {rest : List Char} (h : c4 ≠ 'e') :
    writeLoop sink ec (State.value :: r) ('f' :: 'a' :: 'l' :: 's' :: c4 :: rest)
      = ⟨[], State.value :: r, 'f' :: 'a' :: 'l' :: 's' :: c4 :: rest, some ErrC.syntaxErr⟩ := by
  show writeLoopF (wlMeasure (State.value :: r) ('f' :: 'a' :: 'l' :: 's' :: c4 :: rest) + 1)
    sink ec (State.value :: r) ('f' :: 'a' :: 'l' :: 's' :: c4 :: rest) = _
  simp [writeLoopF, isDigitCase, h]

/-- `case state::value`, byte `n`, fast path, mismatches. -/
theorem wl_value_n_err1 {c1 c2 c3 : Char} {rest : List Char} (h : c1 ≠ 'u') :
    writeLoop sink ec (State.value :: r) ('n' :: c1 :: c2 :: c3 :: rest)
      = ⟨[], State.value :: r, 'n' :: c1 :: c2 :: c3 :: rest, some ErrC.syntaxErr⟩ := by
  show writeLoopF (wlMeasure (State.value :: r) ('n' :: c1 :: c2 :: c3 :: rest) + 1)
    sink ec (State.value :: r) ('n' :: c1 :: c2 :: c3 :: rest) = _
  simp [writeLoopF, isDigitCase, h]

theorem wl_value_n_err2 {c2 c3 : Char} {rest : List Char} (h : c2 ≠ 'l') :
    writeLoop sink ec (State.value :: r) ('n' :: 'u' :: c2 :: c3 :: rest)
      = ⟨[], State.value :: r, 'n' :: 'u' :: c2 :: c3 :: rest, some ErrC.syntaxErr⟩ := by
  show writeLoopF (wlMeasure (State.value :: r) ('n' :: 'u' :: c2 :: c3 :: rest) + 1)
    sink ec (State.value :: r) ('n' :: 'u' :: c2 :: c3 :: rest) = _
  simp [writeLoopF, isDigitCase, h]

theorem wl_value_n_err3 {c3 : Char} {rest : List Char} (h : c3 ≠ 'l') :
    writeLoop sink ec (State.value :: r) ('n' :: 'u' :: 'l' :: c3 :: rest)
      = ⟨[], State.value :: r, 'n' :: 'u' :: 'l' :: c3 :: rest, some ErrC.syntaxErr⟩ := by
  show writeLoopF (wlMeasure (State.value :: r) ('n' :: 'u' :: 'l' :: c3 :: rest) + 1)
    sink ec (State.value :: r) ('n' :: 'u' :: 'l' :: c3 :: rest) = _
  simp [writeLoopF, isDigitCase, h]

end StepLemmas


section Claims

/-- C2: the literal fast paths.  For `true` and `null` the fast path behaves
as claimed, but for `false` the source checks five bytes and then advances
the cursor only four (`p = p + 4`): fed `"false,"` in the value state, the
parser emits `on_false` yet leaves the final `e` of the literal (and the
comma) unconsumed, instead of advancing past the whole 5-byte literal. -/
theorem c2_false_fast_path_consumes_four :
    writeLoop pureSink none [State.value] ['f', 'a', 'l', 's', 'e', ',']
      = ⟨[Ev.falseLit], [], ['e', ','], none⟩ := rfl

/-- C3 counterexample: in the value-dispatch state a `-` byte does not begin
a number; the source has no `case '-'`, so it falls to `default:` and is an
immediate syntax error. -/
theorem c3_minus_is_rejected :
    writeLoop pureSink none [State.value] ['-', '1']
      = ⟨[], [State.value], ['-', '1'], some ErrC.syntaxErr⟩ := rfl

/-- C3 (amended): in the value-dispatch state a decimal digit begins a
number, but the engine CONSUMES that first digit (`++p`) before descending
into the number state; `-` matches no production and is a syntax error, as
is any other byte matching no production; exhaustion with no byte available
suspends without error. -/
theorem c3_value_dispatch_amended (sink : Sink) (ec : Option ErrC) (r : List State) (cs : List Char) :
    (∀ c, isDigitCase c = true →
      writeLoop sink ec (State.value :: r) (c :: cs) = ⟨[], State.number :: r, cs, ec⟩)
    ∧ writeLoop sink ec (State.value :: r) ('-' :: cs)
        = ⟨[], State.value :: r, '-' :: cs, some ErrC.syntaxErr⟩
    ∧ (∀ c, c ≠ '{' → c ≠ '[' → c ≠ '"' → isDigitCase c = false → c ≠ 't' → c ≠ 'f' → c ≠ 'n' →
        writeLoop sink ec (State.value :: r) (c :: cs)
          = ⟨[], State.value :: r, c :: cs, some ErrC.syntaxErr⟩)
    ∧ writeLoop sink ec (State.value :: r) [] = ⟨[], State.value :: r, [], ec⟩ := by
  refine ⟨fun c hc => wl_value_digit hc, ?_, fun c h1 h2 h3 h4 h5 h6 h7 => wl_value_err h1 h2 h3 h4 h5 h6 h7, wl_value_nil⟩
  exact wl_value_err (by decide) (by decide) (by decide) (by decide) (by decide) (by decide) (by decide)

/-- Witness for C3's theorem at concrete inputs. -/
theorem c3_value_dispatch_witness :
    writeLoop pureSink none [State.value] ['5', 'x'] = ⟨[], [State.number], ['x'], none⟩
    ∧ writeLoop pureSink none [State.value] ['!'] = ⟨[], [State.value], ['!'], some ErrC.syntaxErr⟩ :=
  ⟨(c3_value_dispatch_amended pureSink none [] ['x']).1 '5' rfl,
   (c3_value_dispatch_amended pureSink none [] []).2.2.1 '!'
     (by decide) (by decide) (by decide) (by decide) (by decide) (by decide) (by decide)⟩

/-- C4 counterexample: in the members continuation, `}` is consumed and
`on_object_end` fires, but the `members` state is NOT popped (the source
`break`s without `pop_state()`), contradicting the claim. -/
theorem c4_members_close_does_not_pop :
    writeLoop pureSink none [State.members] ['}']
      = ⟨[Ev.objectEnd], [State.members], [], none⟩ := rfl

/-- C4 (amended): in the members continuation, `}` is consumed and
`on_object_end` is notified but the `members` state is left on the stack;
a `,` — like every other byte — neither begins another member nor raises a
syntax error: the loop just breaks without consuming it (the comma-member
cycle and the error case are not implemented in this snapshot). -/
theorem c4_members_amended (sink : Sink) (ec : Option ErrC) (r : List State) (c : Char) (cs : List Char) :
    (sink Ev.objectEnd = none →
      writeLoop sink ec (State.members :: r) ('}' :: cs)
        = ⟨[Ev.objectEnd], State.members :: r, cs, none⟩)
    ∧ (c ≠ '}' →
      writeLoop sink ec (State.members :: r) (c :: cs)
        = ⟨[], State.members :: r, c :: cs, ec⟩) :=
  ⟨fun hs => wl_members_close_ok hs, fun hc => wl_members_break hc⟩

/-- Witness for C4's theorem at concrete inputs, including the comma. -/
theorem c4_members_witness :
    writeLoop pureSink none [State.members] ['}', 'x'] = ⟨[Ev.objectEnd], [State.members], ['x'], none⟩
    ∧ writeLoop pureSink none [State.members] [','] = ⟨[], [State.members], [','], none⟩ :=
  ⟨(c4_members_amended pureSink none [] ',' ['x']).1 rfl,
   (c4_members_amended pureSink none [] ',' []).2 (by decide)⟩

/-- C5 counterexample: feeding `[]` does not produce
`on_array_begin, on_array_end`; only `on_array_begin` is ever emitted (the
array production is a placeholder and `on_array_end` is never called), and
end-of-input then reports a syntax error. -/
theorem c5_array_end_never_emitted :
    runDoc [['[', ']']] = ([Ev.arrayBegin], some ErrC.syntaxErr) := rfl

/-- C5 (amended): feeding `{}` produces exactly `on_object_begin` followed
by `on_object_end` (and is accepted), while feeding `[]` produces exactly
`on_array_begin` and no array-end event, the `]` is never consumed, and
`write_eof` reports a syntax error. -/
theorem c5_empty_containers_amended :
    runDoc [['{', '}']] = ([Ev.objectBegin, Ev.objectEnd], none)
    ∧ runDoc [['[', ']']] = ([Ev.arrayBegin], some ErrC.syntaxErr) := ⟨rfl, rfl⟩

/-- C6: sink abort propagation.  For every sink-callback site in `write`
(`on_object_begin`, `on_array_begin`, `on_string_begin`, the two
`on_object_end` sites, `on_true`, `on_false`, `on_null`), if the callback
assigns an error code then `write` returns that code with no further byte
consumed and no further stack mutation after the callback returns: the
result's stack is exactly the stack at the moment of the call (the
`replace` preceding the call included, the `pop` following it excluded) and
the rest of the chunk is untouched.  For `on_array_begin`/`on_string_begin`
the source lacks the `if(ec) return` check, but the next dispatched state
(`array_`/`string`) returns immediately, so the error still propagates with
nothing consumed and no stack change. -/
theorem c6_sink_abort (sink : Sink) (ec : Option ErrC) (r : List State) (cs inp : List Char) (e : ErrC) :
    (sink Ev.objectBegin = some e →
      writeLoop sink ec (State.value :: r) ('{' :: cs)
        = ⟨[Ev.objectBegin], State.object :: r, cs, some e⟩)
    ∧ (sink Ev.arrayBegin = some e →
      writeLoop sink ec (State.value :: r) ('[' :: cs)
        = ⟨[Ev.arrayBegin], State.array_ :: r, cs, some e⟩)
    ∧ (sink Ev.stringBegin = some e →
      writeLoop sink ec (State.value :: r) ('"' :: cs)
        = ⟨[Ev.stringBegin], State.string :: r, cs, some e⟩)
    ∧ (sink Ev.objectEnd = some e →
      writeLoop sink ec (State.object :: r) ('}' :: cs)
        = ⟨[Ev.objectEnd], State.object :: r, cs, some e⟩)
    ∧ (sink Ev.objectEnd = some e →
      writeLoop sink ec (State.members :: r) ('}' :: cs)
        = ⟨[Ev.objectEnd], State.members :: r, cs, some e⟩)
    ∧ (sink Ev.trueLit = some e →
      writeLoop sink ec (State.true_4 :: r) inp
        = ⟨[Ev.trueLit], State.true_4 :: r, inp, some e⟩)
    ∧ (sink Ev.falseLit = some e →
      writeLoop sink ec (State.false_5 :: r) inp
        = ⟨[Ev.falseLit], State.false_5 :: r, inp, some e⟩)
    ∧ (sink Ev.nullLit = some e →
      writeLoop sink ec (State.null_4 :: r) inp
        = ⟨[Ev.nullLit], State.null_4 :: r, inp, some e⟩) := by
  refine ⟨fun hs => wl_value_obj_err hs, fun hs => ?_, fun hs => ?_,
    fun hs => wl_object_close_err hs, fun hs => wl_members_close_err hs,
    fun hs => wl_true4_err hs, fun hs => wl_false5_err hs, fun hs => wl_null4_err hs⟩
  · rw [wl_value_arr, hs]
  · rw [wl_value_str, hs]

/-- Witness for C6 with a sink that fails on every callback. -/
theorem c6_sink_abort_witness :
    writeLoop failSink none [State.value] ['{', 'x']
      = ⟨[Ev.objectBegin], [State.object], ['x'], some ErrC.sinkErr⟩
    ∧ writeLoop failSink none [State.value] ['[', 'x']
      = ⟨[Ev.arrayBegin], [State.array_], ['x'], some ErrC.sinkErr⟩ :=
  ⟨(c6_sink_abort failSink none [] ['x'] [] ErrC.sinkErr).1 rfl,
   (c6_sink_abort failSink none [] ['x'] [] ErrC.sinkErr).2.1 rfl⟩

/-- C7 counterexample: the complete document `0` (fed then finished) is NOT
accepted: the number production is a placeholder that never completes, so
`write_eof` sees the `number` state on top and reports a syntax error. -/
theorem c7_zero_rejected : runDoc [['0']] = ([], some ErrC.syntaxErr) := rfl

/-- C7 (amended): `01` is indeed rejected, but so are `0` and `0.5`: in all
three cases the first digit is consumed, the placeholder `number` state
never completes, and `write_eof` reports a syntax error. -/
theorem c7_numbers_all_rejected :
    runDoc [['0', '1']] = ([], some ErrC.syntaxErr)
    ∧ runDoc [['0']] = ([], some ErrC.syntaxErr)
    ∧ runDoc [['0', '.', '5']] = ([], some ErrC.syntaxErr) := ⟨rfl, rfl, rfl⟩

/-- C8: `write_eof` succeeds exactly when the residual top state is `ws` or
the stack is empty (`current_state() == state::end`); in every other
residual state it assigns `error::syntax`; the continuation stack is
returned unchanged in all cases. -/
theorem c8_write_eof_iff (st : List State) :
    write_eof st
      = (st, if current_state st = State.ws ∨ current_state st = State.end_
             then none else some ErrC.syntaxErr) := by
  unfold write_eof
  rcases st with _ | ⟨s, r⟩
  · simp [current_state]
  · cases s <;> simp [current_state]

/-- C9: in every byte-consuming state the loop checks `p >= p1` and
suspends on exhaustion, except `case state::members`: there the source
dereferences `*p` without the bounds check, so a `write` call that reaches
`members` with an exhausted cursor performs an out-of-bounds read (modelled
as the explicit result `ErrC.oobRead`) instead of suspending successfully. -/
theorem c9_members_reads_out_of_bounds :
    writeLoop pureSink none [State.members] []
      = ⟨[], [State.members], [], some ErrC.oobRead⟩ := rfl

/-- C10: `write` begins with `ec.assign(0, ec.category())`, so its outcome
is independent of the error value held by the caller's error slot before
the call (the `BOOST_ASSERT` on `state::end` is a release-mode no-op, so
nothing stops feeding a failed instance): the result is a function of the
continuation stack and the chunk only. -/
theorem c10_write_clears_error (sink : Sink) (st : List State) (inp : List Char)
    (ec1 ec2 : Option ErrC) :
    write sink ec1 st inp = write sink ec2 st inp
    ∧ write sink ec1 st inp = writeLoop sink none st inp := ⟨rfl, rfl⟩

end Claims

section ChunkingInvariance

theorem w1_def (st : List State) (inp : List Char) :
    w1 st inp = writeLoop pureSink none st inp := rfl

theorem obsRel_refl (s : List State) : obsRel s s := Or.inl rfl

theorem obsRel_trans {s t u : List State} (h1 : obsRel s t) (h2 : obsRel t u) : obsRel s u := by
  rcases h1 with rfl | ⟨hs, ht⟩
  · exact h2
  · rcases h2 with rfl | ⟨ht', hu⟩
    · exact Or.inr ⟨hs, ht⟩
    · exact Or.inr ⟨hs, hu⟩

theorem write_eof_drain {s : List State} (h : isDrain s) : (write_eof s).2 = none := by
  rcases h with rfl | rfl <;> rfl

theorem write_eof_obsRel {s t : List State} (h : obsRel s t) : (write_eof s).2 = (write_eof t).2 := by
  rcases h with rfl | ⟨hs, ht⟩
  · rfl
  · rw [write_eof_drain hs, write_eof_drain ht]

/-- From the lone bottom `ws`, a write only skips whitespace and possibly
pops to the end state: no events, no error, still drained. -/
theorem drain_ws (x : List Char) :
    (writeLoop pureSink none [State.ws] x).events = []
    ∧ (writeLoop pureSink none [State.ws] x).err = none
    ∧ isDrain (writeLoop pureSink none [State.ws] x).stack := by
  induction x with
  | nil => exact ⟨rfl, rfl, Or.inr rfl⟩
  | cons c cs ih =>
    cases hc : is_ws c with
    | true => rw [wl_ws_consume hc]; exact ih
    | false => rw [wl_ws_pop hc, wl_nil]; exact ⟨rfl, rfl, Or.inl rfl⟩

theorem relW_of_eq {W B : WriteRes} (h : W = B) : RelW W B := by
  subst h
  exact ⟨fun e he => ⟨rfl, he⟩, fun h => ⟨rfl, h, obsRel_refl _⟩⟩

/-- Both sides stopped with a syntax error and no events. -/
theorem relW_syntax (s1 s2 : List State) (r1 r2 : List Char) :
    RelW ⟨[], s1, r1, some ErrC.syntaxErr⟩ ⟨[], s2, r2, some ErrC.syntaxErr⟩ :=
  ⟨fun _ he => ⟨rfl, he⟩, fun h => by exact absurd h (by simp)⟩

theorem splitRel_compose {W W' A B : WriteRes} (h1 : RelW W W') (h2 : SplitRel W' A B) :
    SplitRel W A B := by
  constructor
  · intro e he
    obtain ⟨hev, herr⟩ := h2.1 e he
    obtain ⟨hev2, herr2⟩ := h1.1 e herr
    exact ⟨hev2.trans hev, herr2⟩
  · intro hA
    obtain ⟨hev, herr, hst⟩ := h2.2 hA
    cases hBerr : B.err with
    | some e =>
      obtain ⟨hev2, herr2⟩ := h1.1 e (herr.trans hBerr)
      exact ⟨hev2.trans hev, herr2, fun hn => nomatch hn⟩
    | none =>
      obtain ⟨hev2, herr2, hrel⟩ := h1.2 (herr.trans hBerr)
      exact ⟨hev2.trans hev, herr2, fun _ => obsRel_trans hrel (hst hBerr)⟩

theorem splitRel_consEv {W0 A0 B : WriteRes} (ev : Ev) (h : SplitRel W0 A0 B) :
    SplitRel (WriteRes.consEv ev W0) (WriteRes.consEv ev A0) B := by
  constructor
  · intro e he
    obtain ⟨hev, herr⟩ := h.1 e he
    exact ⟨by simp [WriteRes.consEv, hev], herr⟩
  · intro hA
    obtain ⟨hev, herr, hst⟩ := h.2 hA
    exact ⟨by simp [WriteRes.consEv, hev], herr, hst⟩

/-- `SplitRel` when the first part emitted nothing and succeeded, and the
whole-run agrees observably with the continuation. -/
theorem splitRel_of_relW {W A B : WriteRes} (hA : A.events = [] ∧ A.err = none)
    (h : RelW W B) : SplitRel W A B := by
  refine ⟨fun e he => absurd he (by rw [hA.2]; simp), fun _ => ?_⟩
  cases hB : B.err with
  | some e =>
    obtain ⟨h1, h2⟩ := h.1 e hB
    exact ⟨by rw [hA.1, h1, List.nil_append], h2, fun hn => nomatch hn⟩
  | none =>
    obtain ⟨h1, h2, h3⟩ := h.2 hB
    exact ⟨by rw [hA.1, h1, List.nil_append], h2, fun _ => h3⟩

/-- `SplitConc` when the first chunk is empty (for every good stack that
suspends on an empty chunk without changing shape). -/
theorem splitConc_nilA {st : List State} (hA : w1 st [] = ⟨[], st, [], none⟩)
    (hst : goodStack st) (b : List Char) : SplitConc st [] b := by
  unfold SplitConc SplitRel
  rw [List.nil_append, hA]
  constructor
  · exact fun _ => hst
  · constructor
    · exact fun e he => nomatch he
    · exact fun _ => ⟨(List.nil_append _).symm, rfl, fun _ => obsRel_refl _⟩

/-- `SplitConc` for permanently stuck stacks (placeholder state on top):
every write returns at once. -/
theorem splitConc_stuck (st : List State) (hst : goodStack st)
    (hstuck : ∀ x : List Char, w1 st x = ⟨[], st, x, none⟩) (a b : List Char) :
    SplitConc st a b := by
  unfold SplitConc SplitRel
  rw [hstuck a, hstuck (a ++ b), hstuck b]
  constructor
  · exact fun _ => hst
  · constructor
    · exact fun e he => nomatch he
    · exact fun _ => ⟨rfl, rfl, fun _ => obsRel_refl _⟩

/-- `SplitConc` when both the chunked and the whole run hit the same syntax
error with no events. -/
theorem splitConc_bothErr {st : List State} {a b : List Char}
    (hA : (w1 st a).events = [] ∧ (w1 st a).err = some ErrC.syntaxErr)
    (hW : (w1 st (a ++ b)).events = [] ∧ (w1 st (a ++ b)).err = some ErrC.syntaxErr) :
    SplitConc st a b := by
  unfold SplitConc SplitRel
  constructor
  · exact fun h => absurd h (by rw [hA.2]; simp)
  · constructor
    · exact fun e he => ⟨hW.1.trans hA.1.symm, hW.2.trans (hA.2.symm.trans he)⟩
    · exact fun h => absurd h (by rw [hA.2]; simp)

end ChunkingInvariance

section ChunkingHelpers

/-- Lift `SplitConc` along a step taken identically by the whole run and
the chunked run. -/
theorem splitConc_step {st st' : List State} {a a' b : List Char}
    (h : SplitConc st' a' b)
    (hW : w1 st (a ++ b) = w1 st' (a' ++ b))
    (hA : w1 st a = w1 st' a') : SplitConc st a b := by
  unfold SplitConc at h ⊢
  rw [hW, hA]
  exact h

/-- Lift `SplitConc` along a step that also emits one event on both runs. -/
theorem splitConc_stepEv (ev : Ev) {st st' : List State} {a a' b : List Char}
    (h : SplitConc st' a' b)
    (hW : w1 st (a ++ b) = WriteRes.consEv ev (w1 st' (a' ++ b)))
    (hA : w1 st a = WriteRes.consEv ev (w1 st' a')) : SplitConc st a b := by
  unfold SplitConc at h ⊢
  rw [hW, hA]
  exact And.intro (fun he => h.1 he) (splitRel_consEv ev h.2)

/-- Lift `SplitConc` through a literal-matcher correspondence: the chunked
run stepped into the slow path while the whole run may use the fast path;
`hrel` reconciles the two. -/
theorem splitConc_lit {st st' : List State} {a a' b : List Char}
    (h : SplitConc st' a' b)
    (hA : w1 st a = w1 st' a')
    (hrel : RelW (w1 st (a ++ b)) (w1 st' (a' ++ b))) : SplitConc st a b := by
  unfold SplitConc at h ⊢
  rw [hA]
  exact And.intro h.1 (splitRel_compose hrel h.2)

/-- `SplitConc` when both runs halt in the same state after the same events
with no error, and that state ignores further input. -/
theorem splitConc_halt (E : List Ev) (s' : List State) (r1 r2 r3 : List Char)
    {st : List State} {a b : List Char}
    (hs' : goodStack s')
    (hW : w1 st (a ++ b) = ⟨E, s', r1, none⟩)
    (hA : w1 st a = ⟨E, s', r2, none⟩)
    (hB : w1 s' b = ⟨[], s', r3, none⟩) : SplitConc st a b := by
  unfold SplitConc SplitRel
  rw [hW, hA]
  constructor
  · exact fun _ => hs'
  · constructor
    · exact fun e he => nomatch he
    · intro _
      refine ⟨?_, ?_, fun _ => ?_⟩
      · show E = E ++ (w1 s' b).events
        rw [hB]
        simp
      · show (none : Option ErrC) = (w1 s' b).err
        rw [hB]
      · show obsRel s' (w1 s' b).stack
        rw [hB]
        exact obsRel_refl s'

/-- Fast path versus slow path for the literal `true`: processing `t`
followed by `x` in the value state agrees observably with the slow
continuation that already consumed the `t`. -/
theorem rel_t (x : List Char) :
    RelW (writeLoop pureSink none [State.value, State.ws] ('t' :: x))
         (writeLoop pureSink none [State.true_1, State.ws] x) := by
  match x with
  | [] => exact relW_of_eq wl_value_t_slow0
  | [b1] => exact relW_of_eq wl_value_t_slow1
  | [b1, b2] => exact relW_of_eq wl_value_t_slow2
  | b1 :: b2 :: b3 :: rest =>
    by_cases h1 : b1 = 'r'
    · subst h1
      by_cases h2 : b2 = 'u'
      · subst h2
        by_cases h3 : b3 = 'e'
        · subst h3
          refine relW_of_eq ?_
          rw [wl_value_t_fast, wl_true1_ok, wl_true2_ok, wl_true3_ok]
        · rw [wl_value_t_err3 h3, wl_true1_ok, wl_true2_ok, wl_true3_err h3]
          exact relW_syntax _ _ _ _
      · rw [wl_value_t_err2 h2, wl_true1_ok, wl_true2_err h2]
        exact relW_syntax _ _ _ _
    · rw [wl_value_t_err1 h1, wl_true1_err h1]
      exact relW_syntax _ _ _ _

/-- Fast path versus slow path for the literal `null`. -/
theorem rel_n (x : List Char) :
    RelW (writeLoop pureSink none [State.value, State.ws] ('n' :: x))
         (writeLoop pureSink none [State.null_1, State.ws] x) := by
  match x with
  | [] => exact relW_of_eq wl_value_n_slow0
  | [b1] => exact relW_of_eq wl_value_n_slow1
  | [b1, b2] => exact relW_of_eq wl_value_n_slow2
  | b1 :: b2 :: b3 :: rest =>
    by_cases h1 : b1 = 'u'
    · subst h1
      by_cases h2 : b2 = 'l'
      · subst h2
        by_cases h3 : b3 = 'l'
        · subst h3
          refine relW_of_eq ?_
          rw [wl_value_n_fast, wl_null1_ok, wl_null2_ok, wl_null3_ok]
        · rw [wl_value_n_err3 h3, wl_null1_ok, wl_null2_ok, wl_null3_err h3]
          exact relW_syntax _ _ _ _
      · rw [wl_value_n_err2 h2, wl_null1_ok, wl_null2_err h2]
        exact relW_syntax _ _ _ _
    · rw [wl_value_n_err1 h1, wl_null1_err h1]
      exact relW_syntax _ _ _ _

/-- Fast path versus slow path for the literal `false`.  In the fast path
the source advances only four bytes, so the whole-run side pops back to the
bottom `ws` facing the literal's own final `e` and drains to the end state,
while the byte-exact side consumed all five bytes; the two final stacks are
drain-equivalent and no further events or errors arise on either side. -/
theorem rel_f (x : List Char) :
    RelW (writeLoop pureSink none [State.value, State.ws] ('f' :: x))
         (writeLoop pureSink none [State.false_1, State.ws] x) := by
  match x with
  | [] => exact relW_of_eq wl_value_f_slow0
  | [b1] => exact relW_of_eq wl_value_f_slow1
  | [b1, b2] => exact relW_of_eq wl_value_f_slow2
  | [b1, b2, b3] => exact relW_of_eq wl_value_f_slow3
  | b1 :: b2 :: b3 :: b4 :: rest =>
    by_cases h1 : b1 = 'a'
    · subst h1
      by_cases h2 : b2 = 'l'
      · subst h2
        by_cases h3 : b3 = 's'
        · subst h3
          by_cases h4 : b4 = 'e'
          · subst h4
            rw [wl_value_f_fast, wl_false5_ok rfl,
              wl_ws_pop (show is_ws 'e' = false from rfl), wl_nil,
              wl_false1_ok, wl_false2_ok, wl_false3_ok, wl_false4_ok, wl_false5_ok rfl]
            have hd := drain_ws rest
            unfold RelW
            constructor
            · intro e he
              exact absurd he (by simp [WriteRes.consEv, hd.2.1])
            · intro _
              refine ⟨?_, ?_, ?_⟩
              · show Ev.falseLit :: ([] : List Ev)
                  = Ev.falseLit :: (writeLoop pureSink none [State.ws] rest).events
                rw [hd.1]
              · rfl
              · show obsRel [] (writeLoop pureSink none [State.ws] rest).stack
                exact Or.inr ⟨Or.inl rfl, hd.2.2⟩
          · rw [wl_value_f_err4 h4, wl_false1_ok, wl_false2_ok, wl_false3_ok, wl_false4_err h4]
            exact relW_syntax _ _ _ _
        · rw [wl_value_f_err3 h3, wl_false1_ok, wl_false2_ok, wl_false3_err h3]
          exact relW_syntax _ _ _ _
      · rw [wl_value_f_err2 h2, wl_false1_ok, wl_false2_err h2]
        exact relW_syntax _ _ _ _
    · rw [wl_value_f_err1 h1, wl_false1_err h1]
      exact relW_syntax _ _ _ _

end ChunkingHelpers

section SplitMain

set_option maxHeartbeats 4000000 in
/-- The split lemma: for every reachable stack, running one chunk `a ++ b`
is observably the run of `a` followed by the run of `b` from the suspension
stack, with observation-equivalent final stacks; reachable stacks are
preserved. -/
theorem split_main : ∀ (n : Nat) (st : List State) (a : List Char),
    wlMeasure st a ≤ n → goodStack st → ∀ b : List Char, SplitConc st a b := by
  intro n
  induction n using Nat.strong_induction_on with
  | _ n ih =>
  intro st a hn hst b
  simp only [goodStack, goodStacks, List.mem_cons, List.not_mem_nil, or_false] at hst
  rcases hst with rfl | rfl | rfl | rfl | rfl | rfl | rfl | rfl | rfl | rfl | rfl | rfl | rfl | rfl | rfl | rfl | rfl | rfl | rfl | rfl | rfl
  -- st = [json]
  · refine splitConc_step (ih (wlMeasure [State.ws, State.value, State.ws] a)
        (lt_of_lt_of_le (by simp only [wlMeasure, stackW, weight, List.length_cons]; omega) hn) [State.ws, State.value, State.ws] a (le_refl _) (by decide) b) ?_ ?_
    · simp only [w1_def]
      rw [wl_json, wl_element]
    · simp only [w1_def]
      rw [wl_json, wl_element]
  -- st = [ws, value, ws]
  · match a with
    | [] =>
      refine splitConc_nilA ?_ (by decide) b
      rfl
    | c :: a' =>
      cases hc : is_ws c with
      | true =>
        refine splitConc_step (ih (wlMeasure [State.ws, State.value, State.ws] a')
        (lt_of_lt_of_le (by simp only [wlMeasure, stackW, weight, List.length_cons]; omega) hn) [State.ws, State.value, State.ws] a' (le_refl _) (by decide) b) ?_ ?_
        · simp only [w1_def, List.cons_append]
          rw [wl_ws_consume hc]
        · simp only [w1_def]
          rw [wl_ws_consume hc]
      | false =>
        refine splitConc_step (ih (wlMeasure [State.value, State.ws] (c :: a'))
        (lt_of_lt_of_le (by simp only [wlMeasure, stackW, weight, List.length_cons]; omega) hn) [State.value, State.ws] (c :: a') (le_refl _) (by decide) b) ?_ ?_
        · simp only [w1_def, List.cons_append]
          rw [wl_ws_pop hc]
        · simp only [w1_def]
          rw [wl_ws_pop hc]
  -- st = [value, ws]
  · match a with
    | [] =>
      refine splitConc_nilA ?_ (by decide) b
      rfl
    | c :: a' =>
      by_cases h1 : c = '{'
      · subst h1
        refine splitConc_stepEv Ev.objectBegin (ih (wlMeasure [State.object, State.ws] a')
        (lt_of_lt_of_le (by simp only [wlMeasure, stackW, weight, List.length_cons]; omega) hn) [State.object, State.ws] a' (le_refl _) (by decide) b) ?_ ?_
        · simp only [w1_def, List.cons_append]
          rw [wl_value_obj_ok rfl]
        · simp only [w1_def]
          rw [wl_value_obj_ok rfl]
      · by_cases h2 : c = '['
        · subst h2
          refine splitConc_halt [Ev.arrayBegin] [State.array_, State.ws] (a' ++ b) a' b (by decide) ?_ ?_ ?_
          · simp only [w1_def, List.cons_append]
            rw [wl_value_arr]
            rfl
          · simp only [w1_def]
            rw [wl_value_arr]
            rfl
          · simp only [w1_def]
            rw [wl_array]
        · by_cases h3 : c = '"'
          · subst h3
            refine splitConc_halt [Ev.stringBegin] [State.string, State.ws] (a' ++ b) a' b (by decide) ?_ ?_ ?_
            · simp only [w1_def, List.cons_append]
              rw [wl_value_str]
              rfl
            · simp only [w1_def]
              rw [wl_value_str]
              rfl
            · simp only [w1_def]
              rw [wl_string]
          · cases hd : isDigitCase c with
            | true =>
              refine splitConc_halt [] [State.number, State.ws] (a' ++ b) a' b (by decide) ?_ ?_ ?_
              · simp only [w1_def, List.cons_append]
                rw [wl_value_digit hd]
              · simp only [w1_def]
                rw [wl_value_digit hd]
              · simp only [w1_def]
                rw [wl_number]
            | false =>
              by_cases h5 : c = 't'
              · subst h5
                match a' with
                | [] =>
                  refine splitConc_lit (ih (wlMeasure [State.true_1, State.ws] ([] : List Char))
        (lt_of_lt_of_le (by simp only [wlMeasure, stackW, weight, List.length_cons]; omega) hn) [State.true_1, State.ws] ([] : List Char) (le_refl _) (by decide) b) ?_ (rel_t ([] ++ b))
                  simp only [w1_def]
                  rw [wl_value_t_slow0]
                | [a1] =>
                  refine splitConc_lit (ih (wlMeasure [State.true_1, State.ws] [a1])
        (lt_of_lt_of_le (by simp only [wlMeasure, stackW, weight, List.length_cons]; omega) hn) [State.true_1, State.ws] [a1] (le_refl _) (by decide) b) ?_ (rel_t ([a1] ++ b))
                  simp only [w1_def]
                  rw [wl_value_t_slow1]
                | [a1, a2] =>
                  refine splitConc_lit (ih (wlMeasure [State.true_1, State.ws] [a1, a2])
        (lt_of_lt_of_le (by simp only [wlMeasure, stackW, weight, List.length_cons]; omega) hn) [State.true_1, State.ws] [a1, a2] (le_refl _) (by decide) b) ?_ (rel_t ([a1, a2] ++ b))
                  simp only [w1_def]
                  rw [wl_value_t_slow2]
                | a1 :: a2 :: a3 :: a4 =>
                  by_cases m1 : a1 = 'r'
                  · subst m1
                    by_cases m2 : a2 = 'u'
                    · subst m2
                      by_cases m3 : a3 = 'e'
                      · subst m3
                        refine splitConc_stepEv Ev.trueLit (ih (wlMeasure [State.ws] a4)
        (lt_of_lt_of_le (by simp only [wlMeasure, stackW, weight, List.length_cons]; omega) hn) [State.ws] a4 (le_refl _) (by decide) b) ?_ ?_
                        · simp only [w1_def, List.cons_append]
                          rw [wl_value_t_fast, wl_true4_ok rfl]
                        · simp only [w1_def]
                          rw [wl_value_t_fast, wl_true4_ok rfl]
                      · refine splitConc_bothErr ⟨?_, ?_⟩ ⟨?_, ?_⟩
                        · simp only [w1_def]
                          rw [wl_value_t_err3 m3]
                        · simp only [w1_def]
                          rw [wl_value_t_err3 m3]
                        · simp only [w1_def, List.cons_append]
                          rw [wl_value_t_err3 m3]
                        · simp only [w1_def, List.cons_append]
                          rw [wl_value_t_err3 m3]
                    · refine splitConc_bothErr ⟨?_, ?_⟩ ⟨?_, ?_⟩
                      · simp only [w1_def]
                        rw [wl_value_t_err2 m2]
                      · simp only [w1_def]
                        rw [wl_value_t_err2 m2]
                      · simp only [w1_def, List.cons_append]
                        rw [wl_value_t_err2 m2]
                      · simp only [w1_def, List.cons_append]
                        rw [wl_value_t_err2 m2]
                  · refine splitConc_bothErr ⟨?_, ?_⟩ ⟨?_, ?_⟩
                    · simp only [w1_def]
                      rw [wl_value_t_err1 m1]
                    · simp only [w1_def]
                      rw [wl_value_t_err1 m1]
                    · simp only [w1_def, List.cons_append]
                      rw [wl_value_t_err1 m1]
                    · simp only [w1_def, List.cons_append]
                      rw [wl_value_t_err1 m1]
              · by_cases h6 : c = 'f'
                · subst h6
                  match a' with
                  | [] =>
                    refine splitConc_lit (ih (wlMeasure [State.false_1, State.ws] ([] : List Char))
        (lt_of_lt_of_le (by simp only [wlMeasure, stackW, weight, List.length_cons]; omega) hn) [State.false_1, State.ws] ([] : List Char) (le_refl _) (by decide) b) ?_ (rel_f ([] ++ b))
                    simp only [w1_def]
                    rw [wl_value_f_slow0]
                  | [a1] =>
                    refine splitConc_lit (ih (wlMeasure [State.false_1, State.ws] [a1])
        (lt_of_lt_of_le (by simp only [wlMeasure, stackW, weight, List.length_cons]; omega) hn) [State.false_1, State.ws] [a1] (le_refl _) (by decide) b) ?_ (rel_f ([a1] ++ b))
                    simp only [w1_def]
                    rw [wl_value_f_slow1]
                  | [a1, a2] =>
                    refine splitConc_lit (ih (wlMeasure [State.false_1, State.ws] [a1, a2])
        (lt_of_lt_of_le (by simp only [wlMeasure, stackW, weight, List.length_cons]; omega) hn) [State.false_1, State.ws] [a1, a2] (le_refl _) (by decide) b) ?_ (rel_f ([a1, a2] ++ b))
                    simp only [w1_def]
                    rw [wl_value_f_slow2]
                  | [a1, a2, a3] =>
                    refine splitConc_lit (ih (wlMeasure [State.false_1, State.ws] [a1, a2, a3])
        (lt_of_lt_of_le (by simp only [wlMeasure, stackW, weight, List.length_cons]; omega) hn) [State.false_1, State.ws] [a1, a2, a3] (le_refl _) (by decide) b) ?_ (rel_f ([a1, a2, a3] ++ b))
                    simp only [w1_def]
                    rw [wl_value_f_slow3]
                  | a1 :: a2 :: a3 :: a4 :: a5 =>
                    by_cases m1 : a1 = 'a'
                    · subst m1
                      by_cases m2 : a2 = 'l'
                      · subst m2
                        by_cases m3 : a3 = 's'
                        · subst m3
                          by_cases m4 : a4 = 'e'
                          · subst m4
                            refine splitConc_stepEv Ev.falseLit (ih (wlMeasure [State.ws] ('e' :: a5))
        (lt_of_lt_of_le (by simp only [wlMeasure, stackW, weight, List.length_cons]; omega) hn) [State.ws] ('e' :: a5) (le_refl _) (by decide) b) ?_ ?_
                            · simp only [w1_def, List.cons_append]
                              rw [wl_value_f_fast, wl_false5_ok rfl]
                            · simp only [w1_def]
                              rw [wl_value_f_fast, wl_false5_ok rfl]
                          · refine splitConc_bothErr ⟨?_, ?_⟩ ⟨?_, ?_⟩
                            · simp only [w1_def]
                              rw [wl_value_f_err4 m4]
                            · simp only [w1_def]
                              rw [wl_value_f_err4 m4]
                            · simp only [w1_def, List.cons_append]
                              rw [wl_value_f_err4 m4]
                            · simp only [w1_def, List.cons_append]
                              rw [wl_value_f_err4 m4]
                        · refine splitConc_bothErr ⟨?_, ?_⟩ ⟨?_, ?_⟩
                          · simp only [w1_def]
                            rw [wl_value_f_err3 m3]
                          · simp only [w1_def]
                            rw [wl_value_f_err3 m3]
                          · simp only [w1_def, List.cons_append]
                            rw [wl_value_f_err3 m3]
                          · simp only [w1_def, List.cons_append]
                            rw [wl_value_f_err3 m3]
                      · refine splitConc_bothErr ⟨?_, ?_⟩ ⟨?_, ?_⟩
                        · simp only [w1_def]
                          rw [wl_value_f_err2 m2]
                        · simp only [w1_def]
                          rw [wl_value_f_err2 m2]
                        · simp only [w1_def, List.cons_append]
                          rw [wl_value_f_err2 m2]
                        · simp only [w1_def, List.cons_append]
                          rw [wl_value_f_err2 m2]
                    · refine splitConc_bothErr ⟨?_, ?_⟩ ⟨?_, ?_⟩
                      · simp only [w1_def]
                        rw [wl_value_f_err1 m1]
                      · simp only [w1_def]
                        rw [wl_value_f_err1 m1]
                      · simp only [w1_def, List.cons_append]
                        rw [wl_value_f_err1 m1]
                      · simp only [w1_def, List.cons_append]
                        rw [wl_value_f_err1 m1]
                · by_cases h7 : c = 'n'
                  · subst h7
                    match a' with
                    | [] =>
                      refine splitConc_lit (ih (wlMeasure [State.null_1, State.ws] ([] : List Char))
        (lt_of_lt_of_le (by simp only [wlMeasure, stackW, weight, List.length_cons]; omega) hn) [State.null_1, State.ws] ([] : List Char) (le_refl _) (by decide) b) ?_ (rel_n ([] ++ b))
                      simp only [w1_def]
                      rw [wl_value_n_slow0]
                    | [a1] =>
                      refine splitConc_lit (ih (wlMeasure [State.null_1, State.ws] [a1])
        (lt_of_lt_of_le (by simp only [wlMeasure, stackW, weight, List.length_cons]; omega) hn) [State.null_1, State.ws] [a1] (le_refl _) (by decide) b) ?_ (rel_n ([a1] ++ b))
                      simp only [w1_def]
                      rw [wl_value_n_slow1]
                    | [a1, a2] =>
                      refine splitConc_lit (ih (wlMeasure [State.null_1, State.ws] [a1, a2])
        (lt_of_lt_of_le (by simp only [wlMeasure, stackW, weight, List.length_cons]; omega) hn) [State.null_1, State.ws] [a1, a2] (le_refl _) (by decide) b) ?_ (rel_n ([a1, a2] ++ b))
                      simp only [w1_def]
                      rw [wl_value_n_slow2]
                    | a1 :: a2 :: a3 :: a4 =>
                      by_cases m1 : a1 = 'u'
                      · subst m1
                        by_cases m2 : a2 = 'l'
                        · subst m2
                          by_cases m3 : a3 = 'l'
                          · subst m3
                            refine splitConc_stepEv Ev.nullLit (ih (wlMeasure [State.ws] a4)
        (lt_of_lt_of_le (by simp only [wlMeasure, stackW, weight, List.length_cons]; omega) hn) [State.ws] a4 (le_refl _) (by decide) b) ?_ ?_
                            · simp only [w1_def, List.cons_append]
                              rw [wl_value_n_fast, wl_null4_ok rfl]
                            · simp only [w1_def]
                              rw [wl_value_n_fast, wl_null4_ok rfl]
                          · refine splitConc_bothErr ⟨?_, ?_⟩ ⟨?_, ?_⟩
                            · simp only [w1_def]
                              rw [wl_value_n_err3 m3]
                            · simp only [w1_def]
                              rw [wl_value_n_err3 m3]
                            · simp only [w1_def, List.cons_append]
                              rw [wl_value_n_err3 m3]
                            · simp only [w1_def, List.cons_append]
                              rw [wl_value_n_err3 m3]
                        · refine splitConc_bothErr ⟨?_, ?_⟩ ⟨?_, ?_⟩
                          · simp only [w1_def]
                            rw [wl_value_n_err2 m2]
                          · simp only [w1_def]
                            rw [wl_value_n_err2 m2]
                          · simp only [w1_def, List.cons_append]
                            rw [wl_value_n_err2 m2]
                          · simp only [w1_def, List.cons_append]
                            rw [wl_value_n_err2 m2]
                      · refine splitConc_bothErr ⟨?_, ?_⟩ ⟨?_, ?_⟩
                        · simp only [w1_def]
                          rw [wl_value_n_err1 m1]
                        · simp only [w1_def]
                          rw [wl_value_n_err1 m1]
                        · simp only [w1_def, List.cons_append]
                          rw [wl_value_n_err1 m1]
                        · simp only [w1_def, List.cons_append]
                          rw [wl_value_n_err1 m1]
                  · refine splitConc_bothErr ⟨?_, ?_⟩ ⟨?_, ?_⟩
                    · simp only [w1_def]
                      rw [wl_value_err h1 h2 h3 hd h5 h6 h7]
                    · simp only [w1_def]
                      rw [wl_value_err h1 h2 h3 hd h5 h6 h7]
                    · simp only [w1_def, List.cons_append]
                      rw [wl_value_err h1 h2 h3 hd h5 h6 h7]
                    · simp only [w1_def, List.cons_append]
                      rw [wl_value_err h1 h2 h3 hd h5 h6 h7]
  -- st = [object, ws]
  · match a with
    | [] =>
      refine splitConc_nilA ?_ (by decide) b
      rfl
    | c :: a' =>
      cases hw : is_ws c with
      | true =>
        refine splitConc_step (ih (wlMeasure [State.ws, State.object, State.ws] a')
        (lt_of_lt_of_le (by simp only [wlMeasure, stackW, weight, List.length_cons]; omega) hn) [State.ws, State.object, State.ws] a' (le_refl _) (by decide) b) ?_ ?_
        · simp only [w1_def, List.cons_append]
          rw [wl_object_ws hw]
        · simp only [w1_def]
          rw [wl_object_ws hw]
      | false =>
        by_cases hc : c = '}'
        · subst hc
          refine splitConc_stepEv Ev.objectEnd (ih (wlMeasure [State.ws] a')
        (lt_of_lt_of_le (by simp only [wlMeasure, stackW, weight, List.length_cons]; omega) hn) [State.ws] a' (le_refl _) (by decide) b) ?_ ?_
          · simp only [w1_def, List.cons_append]
            rw [wl_object_close_ok rfl]
          · simp only [w1_def]
            rw [wl_object_close_ok rfl]
        · refine splitConc_halt [] [State.string, State.ws, State.colon,
              State.element, State.members, State.ws] (c :: (a' ++ b)) (c :: a') b (by decide) ?_ ?_ ?_
          · simp only [w1_def, List.cons_append]
            rw [wl_object_member hw hc, wl_member]
          · simp only [w1_def]
            rw [wl_object_member hw hc, wl_member]
          · simp only [w1_def]
            rw [wl_string]
  -- st = [ws, object, ws]
  · match a with
    | [] =>
      refine splitConc_nilA ?_ (by decide) b
      rfl
    | c :: a' =>
      cases hc : is_ws c with
      | true =>
        refine splitConc_step (ih (wlMeasure [State.ws, State.object, State.ws] a')
        (lt_of_lt_of_le (by simp only [wlMeasure, stackW, weight, List.length_cons]; omega) hn) [State.ws, State.object, State.ws] a' (le_refl _) (by decide) b) ?_ ?_
        · simp only [w1_def, List.cons_append]
          rw [wl_ws_consume hc]
        · simp only [w1_def]
          rw [wl_ws_consume hc]
      | false =>
        refine splitConc_step (ih (wlMeasure [State.object, State.ws] (c :: a'))
        (lt_of_lt_of_le (by simp only [wlMeasure, stackW, weight, List.length_cons]; omega) hn) [State.object, State.ws] (c :: a') (le_refl _) (by decide) b) ?_ ?_
        · simp only [w1_def, List.cons_append]
          rw [wl_ws_pop hc]
        · simp only [w1_def]
          rw [wl_ws_pop hc]
  -- st = [ws]
  · match a with
    | [] =>
      refine splitConc_nilA ?_ (by decide) b
      rfl
    | c :: a' =>
      cases hc : is_ws c with
      | true =>
        refine splitConc_step (ih (wlMeasure [State.ws] a')
        (lt_of_lt_of_le (by simp only [wlMeasure, stackW, weight, List.length_cons]; omega) hn) [State.ws] a' (le_refl _) (by decide) b) ?_ ?_
        · simp only [w1_def, List.cons_append]
          rw [wl_ws_consume hc]
        · simp only [w1_def]
          rw [wl_ws_consume hc]
      | false =>
        refine splitConc_halt [] [] (c :: (a' ++ b)) (c :: a') b (by decide) ?_ ?_ ?_
        · simp only [w1_def, List.cons_append]
          rw [wl_ws_pop hc, wl_nil]
        · simp only [w1_def]
          rw [wl_ws_pop hc, wl_nil]
        · simp only [w1_def]
          rw [wl_nil]
  -- st = []
  · exact splitConc_stuck [] (by decide) (fun _ => rfl) a b
  -- st = [true_1, ws]
  · match a with
    | [] =>
      refine splitConc_nilA ?_ (by decide) b
      rfl
    | c :: a' =>
      by_cases hm : c = 'r'
      · subst hm
        refine splitConc_step (ih (wlMeasure [State.true_2, State.ws] a')
        (lt_of_lt_of_le (by simp only [wlMeasure, stackW, weight, List.length_cons]; omega) hn) [State.true_2, State.ws] a' (le_refl _) (by decide) b) ?_ ?_
        · simp only [w1_def, List.cons_append]
          rw [wl_true1_ok]
        · simp only [w1_def]
          rw [wl_true1_ok]
      · refine splitConc_bothErr ⟨?_, ?_⟩ ⟨?_, ?_⟩
        · simp only [w1_def]
          rw [wl_true1_err hm]
        · simp only [w1_def]
          rw [wl_true1_err hm]
        · simp only [w1_def, List.cons_append]
          rw [wl_true1_err hm]
        · simp only [w1_def, List.cons_append]
          rw [wl_true1_err hm]
  -- st = [true_2, ws]
  · match a with
    | [] =>
      refine splitConc_nilA ?_ (by decide) b
      rfl
    | c :: a' =>
      by_cases hm : c = 'u'
      · subst hm
        refine splitConc_step (ih (wlMeasure [State.true_3, State.ws] a')
        (lt_of_lt_of_le (by simp only [wlMeasure, stackW, weight, List.length_cons]; omega) hn) [State.true_3, State.ws] a' (le_refl _) (by decide) b) ?_ ?_
        · simp only [w1_def, List.cons_append]
          rw [wl_true2_ok]
        · simp only [w1_def]
          rw [wl_true2_ok]
      · refine splitConc_bothErr ⟨?_, ?_⟩ ⟨?_, ?_⟩
        · simp only [w1_def]
          rw [wl_true2_err hm]
        · simp only [w1_def]
          rw [wl_true2_err hm]
        · simp only [w1_def, List.cons_append]
          rw [wl_true2_err hm]
        · simp only [w1_def, List.cons_append]
          rw [wl_true2_err hm]
  -- st = [true_3, ws]
  · match a with
    | [] =>
      refine splitConc_nilA ?_ (by decide) b
      rfl
    | c :: a' =>
      by_cases hm : c = 'e'
      · subst hm
        refine splitConc_stepEv Ev.trueLit (ih (wlMeasure [State.ws] a')
        (lt_of_lt_of_le (by simp only [wlMeasure, stackW, weight, List.length_cons]; omega) hn) [State.ws] a' (le_refl _) (by decide) b) ?_ ?_
        · simp only [w1_def, List.cons_append]
          rw [wl_true3_ok, wl_true4_ok rfl]
        · simp only [w1_def]
          rw [wl_true3_ok, wl_true4_ok rfl]
      · refine splitConc_bothErr ⟨?_, ?_⟩ ⟨?_, ?_⟩
        · simp only [w1_def]
          rw [wl_true3_err hm]
        · simp only [w1_def]
          rw [wl_true3_err hm]
        · simp only [w1_def, List.cons_append]
          rw [wl_true3_err hm]
        · simp only [w1_def, List.cons_append]
          rw [wl_true3_err hm]
  -- st = [false_1, ws]
  · match a with
    | [] =>
      refine splitConc_nilA ?_ (by decide) b
      rfl
    | c :: a' =>
      by_cases hm : c = 'a'
      · subst hm
        refine splitConc_step (ih (wlMeasure [State.false_2, State.ws] a')
        (lt_of_lt_of_le (by simp only [wlMeasure, stackW, weight, List.length_cons]; omega) hn) [State.false_2, State.ws] a' (le_refl _) (by decide) b) ?_ ?_
        · simp only [w1_def, List.cons_append]
          rw [wl_false1_ok]
        · simp only [w1_def]
          rw [wl_false1_ok]
      · refine splitConc_bothErr ⟨?_, ?_⟩ ⟨?_, ?_⟩
        · simp only [w1_def]
          rw [wl_false1_err hm]
        · simp only [w1_def]
          rw [wl_false1_err hm]
        · simp only [w1_def, List.cons_append]
          rw [wl_false1_err hm]
        · simp only [w1_def, List.cons_append]
          rw [wl_false1_err hm]
  -- st = [false_2, ws]
  · match a with
    | [] =>
      refine splitConc_nilA ?_ (by decide) b
      rfl
    | c :: a' =>
      by_cases hm : c = 'l'
      · subst hm
        refine splitConc_step (ih (wlMeasure [State.false_3, State.ws] a')
        (lt_of_lt_of_le (by simp only [wlMeasure, stackW, weight, List.length_cons]; omega) hn) [State.false_3, State.ws] a' (le_refl _) (by decide) b) ?_ ?_
        · simp only [w1_def, List.cons_append]
          rw [wl_false2_ok]
        · simp only [w1_def]
          rw [wl_false2_ok]
      · refine splitConc_bothErr ⟨?_, ?_⟩ ⟨?_, ?_⟩
        · simp only [w1_def]
          rw [wl_false2_err hm]
        · simp only [w1_def]
          rw [wl_false2_err hm]
        · simp only [w1_def, List.cons_append]
          rw [wl_false2_err hm]
        · simp only [w1_def, List.cons_append]
          rw [wl_false2_err hm]
  -- st = [false_3, ws]
  · match a with
    | [] =>
      refine splitConc_nilA ?_ (by decide) b
      rfl
    | c :: a' =>
      by_cases hm : c = 's'
      · subst hm
        refine splitConc_step (ih (wlMeasure [State.false_4, State.ws] a')
        (lt_of_lt_of_le (by simp only [wlMeasure, stackW, weight, List.length_cons]; omega) hn) [State.false_4, State.ws] a' (le_refl _) (by decide) b) ?_ ?_
        · simp only [w1_def, List.cons_append]
          rw [wl_false3_ok]
        · simp only [w1_def]
          rw [wl_false3_ok]
      · refine splitConc_bothErr ⟨?_, ?_⟩ ⟨?_, ?_⟩
        · simp only [w1_def]
          rw [wl_false3_err hm]
        · simp only [w1_def]
          rw [wl_false3_err hm]
        · simp only [w1_def, List.cons_append]
          rw [wl_false3_err hm]
        · simp only [w1_def, List.cons_append]
          rw [wl_false3_err hm]
  -- st = [false_4, ws]
  · match a with
    | [] =>
      refine splitConc_nilA ?_ (by decide) b
      rfl
    | c :: a' =>
      by_cases hm : c = 'e'
      · subst hm
        refine splitConc_stepEv Ev.falseLit (ih (wlMeasure [State.ws] a')
        (lt_of_lt_of_le (by simp only [wlMeasure, stackW, weight, List.length_cons]; omega) hn) [State.ws] a' (le_refl _) (by decide) b) ?_ ?_
        · simp only [w1_def, List.cons_append]
          rw [wl_false4_ok, wl_false5_ok rfl]
        · simp only [w1_def]
          rw [wl_false4_ok, wl_false5_ok rfl]
      · refine splitConc_bothErr ⟨?_, ?_⟩ ⟨?_, ?_⟩
        · simp only [w1_def]
          rw [wl_false4_err hm]
        · simp only [w1_def]
          rw [wl_false4_err hm]
        · simp only [w1_def, List.cons_append]
          rw [wl_false4_err hm]
        · simp only [w1_def, List.cons_append]
          rw [wl_false4_err hm]
  -- st = [null_1, ws]
  · match a with
    | [] =>
      refine splitConc_nilA ?_ (by decide) b
      rfl
    | c :: a' =>
      by_cases hm : c = 'u'
      · subst hm
        refine splitConc_step (ih (wlMeasure [State.null_2, State.ws] a')
        (lt_of_lt_of_le (by simp only [wlMeasure, stackW, weight, List.length_cons]; omega) hn) [State.null_2, State.ws] a' (le_refl _) (by decide) b) ?_ ?_
        · simp only [w1_def, List.cons_append]
          rw [wl_null1_ok]
        · simp only [w1_def]
          rw [wl_null1_ok]
      · refine splitConc_bothErr ⟨?_, ?_⟩ ⟨?_, ?_⟩
        · simp only [w1_def]
          rw [wl_null1_err hm]
        · simp only [w1_def]
          rw [wl_null1_err hm]
        · simp only [w1_def, List.cons_append]
          rw [wl_null1_err hm]
        · simp only [w1_def, List.cons_append]
          rw [wl_null1_err hm]
  -- st = [null_2, ws]
  · match a with
    | [] =>
      refine splitConc_nilA ?_ (by decide) b
      rfl
    | c :: a' =>
      by_cases hm : c = 'l'
      · subst hm
        refine splitConc_step (ih (wlMeasure [State.null_3, State.ws] a')
        (lt_of_lt_of_le (by simp only [wlMeasure, stackW, weight, List.length_cons]; omega) hn) [State.null_3, State.ws] a' (le_refl _) (by decide) b) ?_ ?_
        · simp only [w1_def, List.cons_append]
          rw [wl_null2_ok]
        · simp only [w1_def]
          rw [wl_null2_ok]
      · refine splitConc_bothErr ⟨?_, ?_⟩ ⟨?_, ?_⟩
        · simp only [w1_def]
          rw [wl_null2_err hm]
        · simp only [w1_def]
          rw [wl_null2_err hm]
        · simp only [w1_def, List.cons_append]
          rw [wl_null2_err hm]
        · simp only [w1_def, List.cons_append]
          rw [wl_null2_err hm]
  -- st = [null_3, ws]
  · match a with
    | [] =>
      refine splitConc_nilA ?_ (by decide) b
      rfl
    | c :: a' =>
      by_cases hm : c = 'l'
      · subst hm
        refine splitConc_stepEv Ev.nullLit (ih (wlMeasure [State.ws] a')
        (lt_of_lt_of_le (by simp only [wlMeasure, stackW, weight, List.length_cons]; omega) hn) [State.ws] a' (le_refl _) (by decide) b) ?_ ?_
        · simp only [w1_def, List.cons_append]
          rw [wl_null3_ok, wl_null4_ok rfl]
        · simp only [w1_def]
          rw [wl_null3_ok, wl_null4_ok rfl]
      · refine splitConc_bothErr ⟨?_, ?_⟩ ⟨?_, ?_⟩
        · simp only [w1_def]
          rw [wl_null3_err hm]
        · simp only [w1_def]
          rw [wl_null3_err hm]
        · simp only [w1_def, List.cons_append]
          rw [wl_null3_err hm]
        · simp only [w1_def, List.cons_append]
          rw [wl_null3_err hm]
  -- st = [number, ws]
  · exact splitConc_stuck [State.number, State.ws] (by decide) (fun _ => wl_number) a b
  -- st = [string, ws]
  · exact splitConc_stuck [State.string, State.ws] (by decide) (fun _ => wl_string) a b
  -- st = [array_, ws]
  · exact splitConc_stuck [State.array_, State.ws] (by decide) (fun _ => wl_array) a b
  -- member production stack: string placeholder on top
  · exact splitConc_stuck [State.string, State.ws, State.colon, State.element,
      State.members, State.ws] (by decide) (fun _ => wl_string) a b

end SplitMain

section ChunkJoin

theorem obsFrom_single_err {st : List State} {a : List Char} {e : ErrC}
    (h : (w1 st a).err = some e) :
    obsFrom st [a] = ((w1 st a).events, some e) := by
  unfold obsFrom feedSeq
  simp only [show write pureSink none st a = w1 st a from rfl, h]

theorem obsFrom_single_ok {st : List State} {a : List Char}
    (h : (w1 st a).err = none) :
    obsFrom st [a] = ((w1 st a).events, (write_eof (w1 st a).stack).2) := by
  unfold obsFrom feedSeq
  simp only [show write pureSink none st a = w1 st a from rfl, h]
  simp [feedSeq]

theorem obsFrom_cons_err {st : List State} {c : List Char} (cs : List (List Char)) {e : ErrC}
    (h : (w1 st c).err = some e) :
    obsFrom st (c :: cs) = ((w1 st c).events, some e) := by
  have hfeed : feedSeq pureSink st (c :: cs) = ((w1 st c).events, (w1 st c).stack, some e) := by
    simp only [feedSeq, show write pureSink none st c = w1 st c from rfl, h]
  unfold obsFrom
  rw [hfeed]

theorem obsFrom_cons_ok {st : List State} {c : List Char} (cs : List (List Char))
    (h : (w1 st c).err = none) :
    obsFrom st (c :: cs)
      = ((w1 st c).events ++ (obsFrom (w1 st c).stack cs).1,
         (obsFrom (w1 st c).stack cs).2) := by
  have hfeed : feedSeq pureSink st (c :: cs)
      = ((w1 st c).events ++ (feedSeq pureSink (w1 st c).stack cs).1,
         (feedSeq pureSink (w1 st c).stack cs).2) := by
    simp only [feedSeq, show write pureSink none st c = w1 st c from rfl, h]
  unfold obsFrom
  rw [hfeed]
  cases h2 : (feedSeq pureSink (w1 st c).stack cs).2.2 with
  | none => simp [h2]
  | some e => simp [h2]

/-- Joining the remaining chunks into the first one does not change the
observable outcome, for every reachable suspension stack. -/
theorem obs_join : ∀ (cs : List (List Char)) (a : List Char) (st : List State),
    goodStack st → obsFrom st (a :: cs) = obsFrom st [a ++ cs.flatten] := by
  intro cs
  induction cs with
  | nil =>
    intro a st _
    simp
  | cons c2 cs' ihc =>
    intro a st hst
    have hsplit := split_main (wlMeasure st a) st a (le_refl _) hst (c2 ++ cs'.flatten)
    unfold SplitConc SplitRel at hsplit
    rw [show (c2 :: cs').flatten = c2 ++ cs'.flatten from List.flatten_cons]
    cases hA : (w1 st a).err with
    | some e =>
      obtain ⟨hev, herr⟩ := hsplit.2.1 e hA
      rw [obsFrom_cons_err (c2 :: cs') hA, obsFrom_single_err herr, hev]
    | none =>
      have hgs := hsplit.1 hA
      obtain ⟨hev, herr, hrel⟩ := hsplit.2.2 hA
      rw [obsFrom_cons_ok (c2 :: cs') hA, ihc c2 (w1 st a).stack hgs]
      cases hB : (w1 (w1 st a).stack (c2 ++ cs'.flatten)).err with
      | some e =>
        rw [obsFrom_single_err hB, obsFrom_single_err (herr.trans hB), hev]
      | none =>
        rw [obsFrom_single_ok hB, obsFrom_single_ok (herr.trans hB), hev,
          write_eof_obsRel (hrel hB)]

end ChunkJoin

/-- C1: chunking invariance.  For every document accepted by the parser
(writing it as one chunk and then `write_eof` reports no error) and every
way of splitting its bytes into a (nonempty) sequence of chunks, calling
`write` on each chunk in order and then `write_eof` produces the same
ordered sequence of sink callbacks and the same final error result as
calling `write` once on the whole document followed by `write_eof`.  (The
theorem is proved for every byte sequence, accepted or not; the acceptance
hypothesis merely mirrors the claim.) -/
theorem c1_chunking_invariance (doc : List Char) (chunks : List (List Char))
    (hacc : acceptedDoc doc) (hne : chunks ≠ []) (hjoin : chunks.flatten = doc) :
    runDoc chunks = runDoc [doc] := by
  subst hjoin
  cases chunks with
  | nil => exact absurd rfl hne
  | cons c cs =>
    show obsFrom [State.json] (c :: cs) = obsFrom [State.json] [(c :: cs).flatten]
    rw [show (c :: cs).flatten = c ++ cs.flatten from List.flatten_cons]
    exact obs_join cs c [State.json] (by decide)

/-- Witness for C1: the literal `true` split at a byte boundary inside the
token gives the same observable outcome as the whole document. -/
theorem c1_chunking_witness :
    runDoc [['t', 'r'], ['u', 'e']] = runDoc [['t', 'r', 'u', 'e']] :=
  c1_chunking_invariance ['t', 'r', 'u', 'e'] [['t', 'r'], ['u', 'e']]
    rfl (by decide) rfl

end BeastJson
